import Mathlib

/-!
Verification of the IPython executor's execute-and-capture pipeline
(`packages/sandbox-container/src/runtime/executors/python/ipython_executor.py`).

The development shallowly embeds the executor: the structured values the
executor serializes with `json.dumps`, the MIME-bundle processing for
captured display payloads and for the trailing expression's value, the
`execute_code` result assembly, and the stdin/stdout request loop in `main`.
External collaborators (the IPython shell, `capture_output`,
`display_formatter.format`, matplotlib) are modelled at their interfaces:
an `ExecOutcome` records what one `shell.run_cell` invocation produced, and
a rendered value carries the formatter's answer (or the exception the
formatter machinery raised).
-/

namespace IPyExec

/-- JSON-serializable Python value: the structures `json.dumps` accepts in
this pipeline (`None`, `bool`, `int`, `str`, `list`, string-keyed `dict`). -/
inductive PyJson where
  | null : PyJson
  | bool (b : Bool) : PyJson
  | int (i : Int) : PyJson
  | str (s : String) : PyJson
  | arr (xs : List PyJson) : PyJson
  | obj (kvs : List (String × PyJson)) : PyJson

/-- Decimal digit character, `digitChar d` for `d < 10`. -/
def digitChar (d : Nat) : Char := Char.ofNat (48 + d)

/-- Fuel-indexed digit expansion; with fuel above `n` it yields the decimal
digits of `n`, most significant first. -/
def natDigitsAux : Nat → Nat → List Char
  | 0, _ => []
  | fuel + 1, n =>
    if n < 10 then [digitChar n]
    else natDigitsAux fuel (n / 10) ++ [digitChar (n % 10)]

/-- Decimal digits of a natural number, most significant first
(the characters of Python's `repr` of a non-negative int). -/
def natDigits (n : Nat) : List Char := natDigitsAux (n + 1) n

/-- Characters of Python's `repr` of an int (used by `json.dumps`). -/
def intChars (i : Int) : List Char :=
  if i < 0 then '-' :: natDigits i.natAbs else natDigits i.toNat

/-- Lowercase hexadecimal digit character, for `d < 16`. -/
def hexDigitChar (d : Nat) : Char :=
  if d < 10 then Char.ofNat (48 + d) else Char.ofNat (87 + d)

/-- Four lowercase hex digits of `n < 0x10000` (Python's `'{0:04x}'.format`). -/
def hex4 (n : Nat) : List Char :=
  [hexDigitChar (n / 4096 % 16), hexDigitChar (n / 256 % 16),
   hexDigitChar (n / 16 % 16), hexDigitChar (n % 16)]

/-- The `\uXXXX` escape (or surrogate pair) emitted by `json.dumps` with
`ensure_ascii=True` for a code point outside the printable ASCII range. -/
def uEscape (n : Nat) : List Char :=
  if n < 0x10000 then '\\' :: 'u' :: hex4 n
  else
    '\\' :: 'u' :: hex4 (0xd800 + (n - 0x10000) / 0x400) ++
      ('\\' :: 'u' :: hex4 (0xdc00 + (n - 0x10000) % 0x400))

/-- Escape of one character inside a JSON string literal, following
`json.encoder.py_encode_basestring_ascii`: the seven short escapes, `\uXXXX`
for other characters outside `0x20`–`0x7e`, the character itself otherwise. -/
def escapeChar (c : Char) : List Char :=
  if c = '\\' then ['\\', '\\']
  else if c = '"' then ['\\', '"']
  else if c = '\x08' then ['\\', 'b']
  else if c = '\x0c' then ['\\', 'f']
  else if c = '\n' then ['\\', 'n']
  else if c = '\r' then ['\\', 'r']
  else if c = '\t' then ['\\', 't']
  else if c.toNat < 0x20 ∨ 0x7e < c.toNat then uEscape c.toNat
  else [c]

/-- Escape every character of a string body. -/
def escapeChars : List Char → List Char
  | [] => []
  | c :: cs => escapeChar c ++ escapeChars cs

/-- A JSON string literal: quote, escaped body, quote. -/
def dumpStr (s : String) : List Char := '"' :: (escapeChars s.data ++ ['"'])

mutual
/-- Characters of `json.dumps(v)` with the default separators `", "`/`": "`. -/
def dumpVal : PyJson → List Char
  | .null => 'n' :: 'u' :: 'l' :: ['l']
  | .bool b => if b then 't' :: 'r' :: 'u' :: ['e'] else 'f' :: 'a' :: 'l' :: 's' :: ['e']
  | .int i => intChars i
  | .str s => dumpStr s
  | .arr xs => '[' :: dumpArrInner xs
  | .obj kvs => '{' :: dumpObjInner kvs

/-- The part of a dumped array after the opening bracket. -/
def dumpArrInner : List PyJson → List Char
  | [] => [']']
  | x :: xs => dumpVal x ++ dumpMoreArr xs

/-- The part of a dumped array after the first element. -/
def dumpMoreArr : List PyJson → List Char
  | [] => [']']
  | x :: xs => ',' :: ' ' :: (dumpVal x ++ dumpMoreArr xs)

/-- The part of a dumped object after the opening brace. -/
def dumpObjInner : List (String × PyJson) → List Char
  | [] => ['}']
  | (k, v) :: kvs => dumpStr k ++ (':' :: ' ' :: (dumpVal v ++ dumpMoreObj kvs))

/-- The part of a dumped object after the first key-value pair. -/
def dumpMoreObj : List (String × PyJson) → List Char
  | [] => ['}']
  | (k, v) :: kvs =>
    ',' :: ' ' :: (dumpStr k ++ (':' :: ' ' :: (dumpVal v ++ dumpMoreObj kvs)))
end

/-- `json.dumps` on a serializable value. -/
def dumps (v : PyJson) : String := String.mk (dumpVal v)

/-- JSON insignificant whitespace. -/
def isJsonWs (c : Char) : Bool := c = ' ' || c = '\t' || c = '\n' || c = '\r'

/-- Drop leading JSON whitespace. -/
def skipWs : List Char → List Char
  | [] => []
  | c :: cs => if isJsonWs c then skipWs cs else c :: cs

/-- Value of one hexadecimal digit, as accepted by the JSON decoder. -/
def hexVal (c : Char) : Option Nat :=
  if 48 ≤ c.toNat ∧ c.toNat ≤ 57 then some (c.toNat - 48)
  else if 97 ≤ c.toNat ∧ c.toNat ≤ 102 then some (c.toNat - 87)
  else if 65 ≤ c.toNat ∧ c.toNat ≤ 70 then some (c.toNat - 55)
  else none

/-- Decode of the two-character escapes in a JSON string literal. -/
def unescapeShort (e : Char) : Option Char :=
  if e = '"' then some '"'
  else if e = '\\' then some '\\'
  else if e = '/' then some '/'
  else if e = 'b' then some '\x08'
  else if e = 'f' then some '\x0c'
  else if e = 'n' then some '\n'
  else if e = 'r' then some '\r'
  else if e = 't' then some '\t'
  else none

/-- Combined value of four hexadecimal digit characters. -/
def hex4Val (c1 c2 c3 c4 : Char) : Option Nat :=
  match hexVal c1, hexVal c2, hexVal c3, hexVal c4 with
  | some d1, some d2, some d3, some d4 => some (((d1 * 16 + d2) * 16 + d3) * 16 + d4)
  | _, _, _, _ => none

/-- Decode one `\uXXXX` escape after the `\u`, combining a surrogate pair
into one code point (as `json.loads` does). -/
def parseUEscape : List Char → Option (Char × List Char)
  | c1 :: c2 :: c3 :: c4 :: rest =>
    match hex4Val c1 c2 c3 c4 with
    | some n =>
      if n < 0xd800 ∨ 0xdfff < n then some (Char.ofNat n, rest)
      else if n < 0xdc00 then
        match rest with
        | b1 :: b2 :: g1 :: g2 :: g3 :: g4 :: rest2 =>
          if b1 = '\\' ∧ b2 = 'u' then
            match hex4Val g1 g2 g3 g4 with
            | some m =>
              if 0xdc00 ≤ m ∧ m < 0xe000 then
                some (Char.ofNat (0x10000 + (n - 0xd800) * 0x400 + (m - 0xdc00)), rest2)
              else none
            | none => none
          else none
        | _ => none
      else none
    | none => none
  | _ => none

/-- Decode a JSON string body after the opening quote: literal characters up
to the closing quote, short escapes, and `\uXXXX` escapes.  Fuel-indexed;
one unit of fuel per decoded character is enough. -/
def parseStringBody : Nat → List Char → List Char → Option (String × List Char)
  | 0, _, _ => none
  | fuel + 1, cs, acc =>
    match cs with
    | [] => none
    | c :: rest =>
      if c = '"' then some (String.mk acc, rest)
      else if c = '\\' then
        match rest with
        | [] => none
        | e :: rest1 =>
          if e = 'u' then
            match parseUEscape rest1 with
            | some (u, rest2) => parseStringBody fuel rest2 (acc ++ [u])
            | none => none
          else
            match unescapeShort e with
            | some u => parseStringBody fuel rest1 (acc ++ [u])
            | none => none
      else parseStringBody fuel rest (acc ++ [c])

/-- Consume a maximal run of decimal digits, accumulating their value. -/
def parseDigits : List Char → Nat → Nat × List Char
  | c :: cs, acc => if c.isDigit then parseDigits cs (acc * 10 + (c.toNat - 48)) else (acc, c :: cs)
  | [], acc => (acc, [])

/-- In-place update of a key's value in an association list, keeping the
first occurrence's position; appends when the key is new.  This is how
assigning into a Python dict behaves. -/
def objInsert : List (String × PyJson) → String → PyJson → List (String × PyJson)
  | [], k, v => [(k, v)]
  | (k', v') :: rest, k, v =>
    if k' = k then (k', v) :: rest else (k', v') :: objInsert rest k v

/-- `dict(pairs)`: fold the parsed key-value pairs into a dict, later values
for a repeated key replacing earlier ones. -/
def dictOfPairs (pairs : List (String × PyJson)) : List (String × PyJson) :=
  pairs.foldl (fun acc kv => objInsert acc kv.1 kv.2) []

/-- Match an expected literal character sequence at the head of the input. -/
def expectChars : List Char → List Char → Option (List Char)
  | [], cs => some cs
  | _ :: _, [] => none
  | e :: es, c :: cs => if c = e then expectChars es cs else none

mutual
/-- Fuel-indexed JSON value parser (the shape `json.loads` accepts, minus
floats, which this pipeline never produces). -/
def parseVal : Nat → List Char → Option (PyJson × List Char)
  | 0, _ => none
  | fuel + 1, cs =>
    match skipWs cs with
    | [] => none
    | c :: rest =>
      if c = 'n' then
        match expectChars ['u', 'l', 'l'] rest with
        | some r => some (.null, r)
        | none => none
      else if c = 't' then
        match expectChars ['r', 'u', 'e'] rest with
        | some r => some (.bool true, r)
        | none => none
      else if c = 'f' then
        match expectChars ['a', 'l', 's', 'e'] rest with
        | some r => some (.bool false, r)
        | none => none
      else if c = '"' then
        match parseStringBody (rest.length + 1) rest [] with
        | some (s, rest2) => some (.str s, rest2)
        | none => none
      else if c = '[' then
        match parseArrItems fuel rest with
        | some (xs, rest2) => some (.arr xs, rest2)
        | none => none
      else if c = '{' then
        match parseObjItems fuel rest with
        | some (kvs, rest2) => some (.obj (dictOfPairs kvs), rest2)
        | none => none
      else if c = '-' then
        match rest with
        | c2 :: rest2 =>
          if c2.isDigit then
            let p := parseDigits (c2 :: rest2) 0
            some (.int (-(p.1 : Int)), p.2)
          else none
        | [] => none
      else if c.isDigit then
        let p := parseDigits (c :: rest) 0
        some (.int (p.1 : Int), p.2)
      else none

/-- Array items after the opening bracket. -/
def parseArrItems : Nat → List Char → Option (List PyJson × List Char)
  | 0, _ => none
  | fuel + 1, cs =>
    match skipWs cs with
    | [] => none
    | c :: rest =>
      if c = ']' then some ([], rest)
      else
        match parseVal fuel (c :: rest) with
        | some (v, rest2) =>
          match parseArrMore fuel rest2 with
          | some (vs, rest3) => some (v :: vs, rest3)
          | none => none
        | none => none

/-- Array items after the first element: comma-separated values. -/
def parseArrMore : Nat → List Char → Option (List PyJson × List Char)
  | 0, _ => none
  | fuel + 1, cs =>
    match skipWs cs with
    | [] => none
    | c :: rest =>
      if c = ']' then some ([], rest)
      else if c = ',' then
        match parseVal fuel rest with
        | some (v, rest2) =>
          match parseArrMore fuel rest2 with
          | some (vs, rest3) => some (v :: vs, rest3)
          | none => none
        | none => none
      else none

/-- Object members after the opening brace. -/
def parseObjItems : Nat → List Char → Option (List (String × PyJson) × List Char)
  | 0, _ => none
  | fuel + 1, cs =>
    match skipWs cs with
    | [] => none
    | c :: rest =>
      if c = '}' then some ([], rest)
      else if c = '"' then
        match parseStringBody (rest.length + 1) rest [] with
        | some (k, rest2) =>
          match skipWs rest2 with
          | [] => none
          | c2 :: rest3 =>
            if c2 = ':' then
              match parseVal fuel rest3 with
              | some (v, rest4) =>
                match parseObjMore fuel rest4 with
                | some (kvs, rest5) => some ((k, v) :: kvs, rest5)
                | none => none
              | none => none
            else none
        | none => none
      else none

/-- Object members after the first pair: comma-separated `"key": value`. -/
def parseObjMore : Nat → List Char → Option (List (String × PyJson) × List Char)
  | 0, _ => none
  | fuel + 1, cs =>
    match skipWs cs with
    | [] => none
    | c :: rest =>
      if c = '}' then some ([], rest)
      else if c = ',' then
        match skipWs rest with
        | [] => none
        | c1 :: rest1 =>
          if c1 = '"' then
            match parseStringBody (rest1.length + 1) rest1 [] with
            | some (k, rest2) =>
              match skipWs rest2 with
              | [] => none
              | c2 :: rest3 =>
                if c2 = ':' then
                  match parseVal fuel rest3 with
                  | some (v, rest4) =>
                    match parseObjMore fuel rest4 with
                    | some (kvs, rest5) => some ((k, v) :: kvs, rest5)
                    | none => none
                  | none => none
                else none
            | none => none
          else none
      else none
end

/-- `json.loads`: parse a complete JSON document, rejecting trailing data. -/
def loads (s : String) : Option PyJson :=
  match parseVal (s.data.length + 1) s.data with
  | some (v, rest) => if (skipWs rest).isEmpty then some v else none
  | none => none

/-- Keys are pairwise distinct. -/
def distinctKeys : List String → Bool
  | [] => true
  | k :: ks => !(ks.contains k) && distinctKeys ks

mutual
/-- A value models a real Python structure: every dict level has distinct
keys (a Python dict cannot hold a key twice). -/
def wfJson : PyJson → Bool
  | .arr xs => wfList xs
  | .obj kvs => distinctKeys (kvs.map Prod.fst) && wfPairs kvs
  | _ => true

/-- All array elements well-formed. -/
def wfList : List PyJson → Bool
  | [] => true
  | x :: xs => wfJson x && wfList xs

/-- All object values well-formed. -/
def wfPairs : List (String × PyJson) → Bool
  | [] => true
  | (_, v) :: kvs => wfJson v && wfPairs kvs
end

/-! ## Output blocks and MIME bundles -/

/-- A MIME bundle: what an IPython display payload's `data`/`metadata` dict
or `display_formatter.format`'s `formatted_dict` holds, keyed by MIME type. -/
abbrev MimeBundle := List (String × PyJson)

/-- First-match association lookup: `mime in data` / `data[mime]` on a dict. -/
def assoc : MimeBundle → String → Option PyJson
  | [], _ => none
  | (k, v) :: rest, m => if k = m then some v else assoc rest m

/-- One typed output block, as appended to `result['outputs']`. -/
structure OutputBlock where
  type : String
  data : PyJson
  metadata : PyJson

/-- `metadata.get(mime, {})`. -/
def getMeta (md : MimeBundle) (mime : String) : PyJson :=
  (assoc md mime).getD (.obj [])

/-- One row of the executor's fixed MIME table: the MIME key, the emitted
block tag, whether the data goes through `json.dumps`, and whether emission
sets `output_added` in the trailing-value path (`text/html` does not). -/
structure MimeSpec where
  mime : String
  tag : String
  serialize : Bool
  marks : Bool

/-- The eight recognized rich MIME types, in the order of the executor's
`if` chain (identical in the display-payload and trailing-value paths). -/
def mimeSpecs : List MimeSpec :=
  [⟨"image/png", "image", false, true⟩,
   ⟨"image/jpeg", "jpeg", false, true⟩,
   ⟨"image/svg+xml", "svg", false, true⟩,
   ⟨"text/html", "html", false, false⟩,
   ⟨"application/json", "json", true, true⟩,
   ⟨"text/latex", "latex", false, true⟩,
   ⟨"text/markdown", "markdown", false, true⟩,
   ⟨"application/javascript", "javascript", false, true⟩]

/-- Block payload: the raw bundle entry, except that `application/json`
data is serialized with `json.dumps`. -/
def blockData (serialize : Bool) (d : PyJson) : PyJson :=
  if serialize then .str (dumps d) else d

/-- The block (if any) one MIME row emits from a bundle. -/
def emittedFor (data md : MimeBundle) (sp : MimeSpec) : List OutputBlock :=
  match assoc data sp.mime with
  | some d => [⟨sp.tag, blockData sp.serialize d, getMeta md sp.mime⟩]
  | none => []

/-- One captured display payload: an object from `captured.outputs`, either
carrying a `data` MIME dict (plus metadata) or lacking the attribute. -/
inductive CapturedOutput where
  | rich (data : MimeBundle) (metadata : MimeBundle) : CapturedOutput
  | noData : CapturedOutput

/-- Blocks emitted for one captured display payload (executor lines 92-161):
every recognized MIME type present, in table order, then `text/plain` as a
`text` block only when it is the single key of the `data` dict. -/
def processCapturedOutput : CapturedOutput → List OutputBlock
  | .noData => []
  | .rich data md =>
    (mimeSpecs.map (emittedFor data md)).flatten ++
      (match assoc data "text/plain" with
       | some d => if data.length == 1 then [⟨"text", d, getMeta md "text/plain"⟩] else []
       | none => [])

/-- One step of the trailing-value `if` chain: append the block for this
MIME row (if present) to the accumulated outputs and update `output_added`. -/
def emitStep (fmt md : MimeBundle) (s : List OutputBlock × Bool) (sp : MimeSpec) :
    List OutputBlock × Bool :=
  match assoc fmt sp.mime with
  | some d => (s.1 ++ [⟨sp.tag, blockData sp.serialize d, getMeta md sp.mime⟩], s.2 || sp.marks)
  | none => s

/-- Render the trailing expression's formatted bundle into `result['outputs']`
(executor lines 184-269): the eight rich rows in order tracking
`output_added` (html does not mark it), then a `text` block when `text/plain`
is present and either nothing marked `output_added` or some `html` block
occurs among the outputs accumulated so far (`has_html` scans the whole
`result['outputs']` list). -/
def renderTrailing (fmt md : MimeBundle) (outputs0 : List OutputBlock) : List OutputBlock :=
  let s := mimeSpecs.foldl (emitStep fmt md) (outputs0, false)
  match assoc fmt "text/plain" with
  | some d =>
    if !s.2 || s.1.any (fun o => o.type == "html") then
      s.1 ++ [⟨"text", d, getMeta md "text/plain"⟩]
    else s.1
  | none => s.1

/-! ## Errors, outcomes and `execute_code` -/

/-- A raised Python exception, as the executor observes it: its class name,
`str(e)`, the frames `traceback.format_tb` would yield, and the text
`traceback.format_exc()` would yield at the catch site. -/
structure PyError where
  className : String
  message : String
  tracebackFrames : List String
  formatExc : String

/-- The `error` dict of a response. -/
structure ErrorInfo where
  type : String
  message : String
  traceback : String

/-- Error info for an execution-time error (lines 83-89):
`'\n'.flatten(traceback.format_tb(...))`. -/
def execErrorInfo (e : PyError) : ErrorInfo :=
  ⟨e.className, e.message, String.intercalate "\n" e.tracebackFrames⟩

/-- Error info built in `execute_code`'s `except` clause (lines 271-277):
`type(e).__name__` and `traceback.format_exc()`. -/
def internalErrorInfo (e : PyError) : ErrorInfo :=
  ⟨e.className, e.message, e.formatExc⟩

/-- A trailing value that is natively a dict or a list
(`isinstance(exec_result.result, (dict, list))`). -/
inductive NativeStruct where
  | dict (kvs : List (String × PyJson)) : NativeStruct
  | list (xs : List PyJson) : NativeStruct

/-- The raw structure as the serializable value it is. -/
def NativeStruct.toJson : NativeStruct → PyJson
  | .dict kvs => .obj kvs
  | .list xs => .arr xs

/-- The trailing expression's value at the executor's interface: whether it
is natively a dict/list, and what `shell.display_formatter.format` returns
for it — a `(formatted_dict, metadata)` pair, or the exception the
formatting machinery raises.  The formatter is consulted only when the
value is not natively structured. -/
structure PyValue where
  native : Option NativeStruct
  render : Except PyError (MimeBundle × MimeBundle)

/-- Everything one `shell.run_cell` invocation under `capture_output`
produced: captured stdio text, captured display payloads, the execution
error if the user's code raised, the trailing expression's value (absent
when the last statement was not an expression), and the figures
`capture_matplotlib_figures` drains (already base64-encoded; the drain
swallows its own failures). -/
structure ExecOutcome where
  stdout : String
  stderr : String
  capturedOutputs : List CapturedOutput
  errorInExec : Option PyError
  result : Option PyValue
  figures : List String

/-- The `result` dict `execute_code` assembles. -/
structure ExecResult where
  stdout : String
  stderr : String
  error : Option ErrorInfo
  outputs : List OutputBlock

/-- An `image` block for one drained matplotlib figure (lines 166-171). -/
def figureBlock (figData : String) : OutputBlock := ⟨"image", .str figData, .obj []⟩

/-- Blocks of all captured display payloads, in capture order. -/
def capturedBlocks (o : ExecOutcome) : List OutputBlock :=
  (o.capturedOutputs.map processCapturedOutput).flatten

/-- The single `json` block of the dict/list bypass (lines 177-182). -/
def jsonBlockFor (s : NativeStruct) : OutputBlock := ⟨"json", .str (dumps s.toJson), .obj []⟩

/-- `execute_code` (lines 63-279): set stdio from the capture, record an
execution-time error, emit display-payload blocks, append drained figures,
then process the trailing value — dict/list bypass straight to one `json`
block, otherwise render via the formatter; an exception from the machinery
is caught by the surrounding `except`, which only sets `result['error']`. -/
def execute_code (o : ExecOutcome) : ExecResult :=
  let r : ExecResult := { stdout := "", stderr := "", error := none, outputs := [] }
  let r := { r with stdout := o.stdout, stderr := o.stderr }
  let r := match o.errorInExec with
    | some e => { r with error := some (execErrorInfo e) }
    | none => r
  let r := { r with outputs := r.outputs ++ capturedBlocks o }
  let r := { r with outputs := r.outputs ++ o.figures.map figureBlock }
  match o.result with
  | none => r
  | some v =>
    match v.native with
    | some s => { r with outputs := r.outputs ++ [jsonBlockFor s] }
    | none =>
      match v.render with
      | .ok (fmt, md) => { r with outputs := renderTrailing fmt md r.outputs }
      | .error e => { r with error := some (internalErrorInfo e) }

/-! ## The request/response loop -/

/-- A request as `main` sees it after a successful parse: the effective
code (`request.get('code', '')`), the echoed `executionId`
(`request.get('executionId')`, absent giving `None`), and what the shared
shell produces for this code. -/
structure Request where
  code : String
  executionId : Option PyJson
  outcome : ExecOutcome

/-- One iteration's input at the granularity `main` branches on: a line that
fails JSON parsing, a parsed request, a `KeyboardInterrupt`, or any other
unexpected exception raised while processing. -/
inductive LineEvent where
  | malformed (msg : String) : LineEvent
  | request (req : Request) : LineEvent
  | interrupt : LineEvent
  | unexpected (e : PyError) : LineEvent

/-- Serialized `error` dict. -/
def ErrorInfo.toJson (e : ErrorInfo) : PyJson :=
  .obj [("type", .str e.type), ("message", .str e.message), ("traceback", .str e.traceback)]

/-- The response's `error` field: `null` or the error dict. -/
def errorField : Option ErrorInfo → PyJson
  | none => .null
  | some e => e.toJson

/-- Serialized output block. -/
def OutputBlock.toJson (b : OutputBlock) : PyJson :=
  .obj [("type", .str b.type), ("data", b.data), ("metadata", b.metadata)]

/-- The JSON object written for one executed request (lines 294-301):
`execute_code`'s result plus `executionId` and `success = (error is None)`. -/
def responseJson (r : ExecResult) (executionId : Option PyJson) : PyJson :=
  .obj [("stdout", .str r.stdout),
        ("stderr", .str r.stderr),
        ("error", errorField r.error),
        ("outputs", .arr (r.outputs.map OutputBlock.toJson)),
        ("executionId", executionId.getD .null),
        ("success", .bool r.error.isNone)]

/-- The JSON object written on a parse failure (lines 303-312). -/
def protocolErrorJson (msg : String) : PyJson :=
  .obj [("error", .obj [("type", .str "ProtocolError"),
                        ("message", .str ("Invalid JSON: " ++ msg))]),
        ("status", .str "error")]

/-- The JSON object written on an unexpected processing error (317-327). -/
def internalErrorJson (e : PyError) : PyJson :=
  .obj [("error", .obj [("type", .str "InternalError"),
                        ("message", .str ("Unexpected error: " ++ e.message)),
                        ("traceback", .str e.formatExc)]),
        ("status", .str "error")]

/-- `main`'s loop over the input stream: one JSON line out per event, with
`KeyboardInterrupt` breaking the loop and every other failure handled
per-request (lines 281-327).  End of input ends the list. -/
def mainLoop : List LineEvent → List PyJson
  | [] => []
  | .malformed msg :: rest => protocolErrorJson msg :: mainLoop rest
  | .request req :: rest =>
    responseJson (execute_code req.outcome) req.executionId :: mainLoop rest
  | .interrupt :: _ => []
  | .unexpected e :: rest => internalErrorJson e :: mainLoop rest

/-- Field lookup on a serialized JSON object. -/
def lookupKey (j : PyJson) (k : String) : Option PyJson :=
  match j with
  | .obj kvs => assoc kvs k
  | _ => none

/-! ## Derived decompositions used to state the claims -/

/-- The rich (non-text) blocks the trailing-value path emits, in table
order; independent of previously accumulated outputs. -/
def richNew (fmt md : MimeBundle) : List OutputBlock :=
  (mimeSpecs.map (emittedFor fmt md)).flatten

/-- The final value of the `output_added` flag for a formatted bundle. -/
def outputAddedB (fmt : MimeBundle) : Bool :=
  mimeSpecs.any (fun sp => sp.marks && (assoc fmt sp.mime).isSome)

/-- The blocks the trailing-value path appends for one rendered value,
given the outputs accumulated before it. -/
def trailingAppended (fmt md : MimeBundle) (prior : List OutputBlock) : List OutputBlock :=
  richNew fmt md ++
    (match assoc fmt "text/plain" with
     | some d =>
       if !outputAddedB fmt || (prior ++ richNew fmt md).any (fun o => o.type == "html") then
         [⟨"text", d, getMeta md "text/plain"⟩]
       else []
     | none => [])

/-- The input does not begin with a decimal digit (boundary condition after
a serialized integer). -/
def noDigitHead : List Char → Bool
  | [] => true
  | c :: _ => !c.isDigit

/-- The eight recognized rich MIME keys. -/
def richMimes : List String := mimeSpecs.map (fun sp => sp.mime)

/-- The blocks step 2 contributes to `execute_code`'s outputs. -/
def trailingPart (o : ExecOutcome) : List OutputBlock :=
  match o.result with
  | none => []
  | some v =>
    match v.native with
    | some s => [jsonBlockFor s]
    | none =>
      match v.render with
      | .ok (fmt, md) =>
        trailingAppended fmt md (capturedBlocks o ++ o.figures.map figureBlock)
      | .error _ => []

/-- The `error` field `execute_code` ends up with: the machinery exception
when the formatter raised (set last, overriding), otherwise the execution
error when the user's code raised, otherwise `None`. -/
def execErrorOf (o : ExecOutcome) : Option ErrorInfo :=
  match o.result with
  | some v =>
    match v.native with
    | none =>
      match v.render with
      | .error e => some (internalErrorInfo e)
      | .ok _ => o.errorInExec.map execErrorInfo
    | some _ => o.errorInExec.map execErrorInfo
  | none => o.errorInExec.map execErrorInfo

/-! ## Character and digit facts -/

theorem ne_of_isDigit {c d : Char} (h : c.isDigit = true) (hd : d.isDigit = false) : c ≠ d := by
  intro he
  rw [he, hd] at h
  exact Bool.false_ne_true h

theorem isJsonWs_of_isDigit {c : Char} (h : c.isDigit = true) : isJsonWs c = false := by
  have h1 : c ≠ ' ' := ne_of_isDigit h (by decide)
  have h2 : c ≠ '\t' := ne_of_isDigit h (by decide)
  have h3 : c ≠ '\n' := ne_of_isDigit h (by decide)
  have h4 : c ≠ '\r' := ne_of_isDigit h (by decide)
  simp [isJsonWs, h1, h2, h3, h4]

theorem digitChar_isDigit : ∀ d, d < 10 → (digitChar d).isDigit = true := by decide

theorem digitChar_val : ∀ d, d < 10 → (digitChar d).toNat - 48 = d := by decide

theorem skipWs_cons_of_not_ws {c : Char} {cs : List Char} (h : isJsonWs c = false) :
    skipWs (c :: cs) = c :: cs := by
  simp [skipWs, h]

theorem natDigitsAux_spec :
    ∀ fuel n, n < fuel →
      natDigitsAux fuel n ≠ [] ∧ (∀ c ∈ natDigitsAux fuel n, c.isDigit = true) ∧
        ∀ acc, (natDigitsAux fuel n).foldl (fun a c => a * 10 + (c.toNat - 48)) acc =
          acc * 10 ^ (natDigitsAux fuel n).length + n := by
  intro fuel
  induction fuel with
  | zero => intro n hn; omega
  | succ fuel ih =>
    intro n hn
    by_cases h10 : n < 10
    · refine ⟨by simp [natDigitsAux, h10], ?_, ?_⟩
      · intro c hc
        simp [natDigitsAux, h10] at hc
        subst hc
        exact digitChar_isDigit n h10
      · intro acc
        simp [natDigitsAux, h10, digitChar_val n h10]
    · have hdiv : n / 10 < fuel := by omega
      obtain ⟨hne, hdig, hval⟩ := ih (n / 10) hdiv
      have hmod : n % 10 < 10 := Nat.mod_lt _ (by omega)
      refine ⟨by simp [natDigitsAux, h10], ?_, ?_⟩
      · intro c hc
        simp [natDigitsAux, h10] at hc
        rcases hc with hc | hc
        · exact hdig c hc
        · subst hc; exact digitChar_isDigit _ hmod
      · intro acc
        simp only [natDigitsAux, h10, if_false]
        rw [List.foldl_append]
        simp only [List.foldl]
        rw [hval acc, digitChar_val _ hmod, List.length_append]
        have hstep : n / 10 * 10 + n % 10 = n := Nat.div_add_mod' n 10
        calc (acc * 10 ^ (natDigitsAux fuel (n / 10)).length + n / 10) * 10 + n % 10
            = acc * (10 ^ (natDigitsAux fuel (n / 10)).length * 10) +
                (n / 10 * 10 + n % 10) := by ring
          _ = acc * 10 ^ ((natDigitsAux fuel (n / 10)).length + [digitChar (n % 10)].length) + n := by
              rw [hstep]
              simp [pow_succ]

theorem natDigits_spec (n : Nat) :
    natDigits n ≠ [] ∧ (∀ c ∈ natDigits n, c.isDigit = true) ∧
      ∀ acc, (natDigits n).foldl (fun a c => a * 10 + (c.toNat - 48)) acc =
        acc * 10 ^ (natDigits n).length + n :=
  natDigitsAux_spec (n + 1) n (Nat.lt_succ_self n)

theorem parseDigits_of_noDigit {rest : List Char} (h : noDigitHead rest = true) (acc : Nat) :
    parseDigits rest acc = (acc, rest) := by
  cases rest with
  | nil => simp [parseDigits]
  | cons c t =>
    simp only [noDigitHead, Bool.not_eq_true'] at h
    simp [parseDigits, h]

theorem parseDigits_append {ds rest : List Char} (hds : ∀ c ∈ ds, c.isDigit = true)
    (hrest : noDigitHead rest = true) (acc : Nat) :
    parseDigits (ds ++ rest) acc = (ds.foldl (fun a c => a * 10 + (c.toNat - 48)) acc, rest) := by
  induction ds generalizing acc with
  | nil => simpa using parseDigits_of_noDigit hrest acc
  | cons c t ih =>
    have hc : c.isDigit = true := hds c (by simp)
    simp only [List.cons_append, parseDigits, hc, if_true, List.foldl]
    exact ih (fun x hx => hds x (by simp [hx])) _

theorem parseDigits_natDigits (n : Nat) {rest : List Char} (hrest : noDigitHead rest = true) :
    parseDigits (natDigits n ++ rest) 0 = (n, rest) := by
  obtain ⟨-, hdig, hval⟩ := natDigits_spec n
  rw [parseDigits_append hdig hrest 0, hval 0]
  simp

/-! ## String escape roundtrip -/

theorem hexVal_hexDigitChar : ∀ d, d < 16 → hexVal (hexDigitChar d) = some d := by decide

theorem hex4Val_encode {n : Nat} (hn : n < 0x10000) :
    hex4Val (hexDigitChar (n / 4096 % 16)) (hexDigitChar (n / 256 % 16))
      (hexDigitChar (n / 16 % 16)) (hexDigitChar (n % 16)) = some n := by
  have harith : ((n / 4096 % 16 * 16 + n / 256 % 16) * 16 + n / 16 % 16) * 16 + n % 16 = n := by
    omega
  simp [hex4Val, hexVal_hexDigitChar _ (Nat.mod_lt _ (by omega)), harith]

theorem char_toNat_valid (c : Char) :
    c.toNat < 0xd800 ∨ (0xdfff < c.toNat ∧ c.toNat < 0x110000) := by
  rcases c.valid with h | ⟨h1, h2⟩
  · exact Or.inl (UInt32.toNat_lt_of_lt (by decide) h)
  · exact Or.inr ⟨UInt32.lt_toNat_of_lt (by decide) h1, UInt32.toNat_lt_of_lt (by decide) h2⟩

theorem parseUEscape_bmp {n : Nat} (hn : n < 0x10000)
    (hval : n < 0xd800 ∨ 0xdfff < n) (tail : List Char) :
    parseUEscape (hex4 n ++ tail) = some (Char.ofNat n, tail) := by
  simp only [hex4, List.cons_append, List.nil_append]
  simp only [parseUEscape, hex4Val_encode hn]
  simp only [hval, if_true]

theorem parseUEscape_pair {hi lo : Nat} (hhi1 : 0xd800 ≤ hi) (hhi2 : hi < 0xdc00)
    (hlo1 : 0xdc00 ≤ lo) (hlo2 : lo < 0xe000) (tail : List Char) :
    parseUEscape (hex4 hi ++ '\\' :: 'u' :: (hex4 lo ++ tail)) =
      some (Char.ofNat (0x10000 + (hi - 0xd800) * 0x400 + (lo - 0xdc00)), tail) := by
  have hhi : hi < 0x10000 := by omega
  have hlo : lo < 0x10000 := by omega
  have hnb1 : ¬ (hi < 0xd800) := by omega
  have hnb2 : ¬ (0xdfff < hi) := by omega
  have hlorng : 0xdc00 ≤ lo ∧ lo < 0xe000 := ⟨hlo1, hlo2⟩
  have hbu : ('\\' : Char) = '\\' ∧ ('u' : Char) = 'u' := ⟨rfl, rfl⟩
  simp only [hex4, List.cons_append, List.nil_append, List.append_assoc]
  simp only [parseUEscape, hex4Val_encode hhi, hex4Val_encode hlo]
  simp only [hnb1, hnb2, or_self, if_false, hhi2, if_true, hbu, hlorng, and_self]

theorem parseUEscape_high {n : Nat} (hn1 : 0x10000 ≤ n) (hn2 : n < 0x110000) (tail : List Char) :
    parseUEscape (hex4 (0xd800 + (n - 0x10000) / 0x400) ++
      '\\' :: 'u' :: (hex4 (0xdc00 + (n - 0x10000) % 0x400) ++ tail)) = some (Char.ofNat n, tail) := by
  rw [parseUEscape_pair (by omega) (by omega) (by omega) (by omega) tail]
  have harg : 0x10000 + (0xd800 + (n - 0x10000) / 0x400 - 0xd800) * 0x400 +
      (0xdc00 + (n - 0x10000) % 0x400 - 0xdc00) = n := by omega
  rw [harg]

theorem parseStringBody_escapeChar (c : Char) (fuel : Nat) (tail acc : List Char) :
    parseStringBody (fuel + 1) (escapeChar c ++ tail) acc =
      parseStringBody fuel tail (acc ++ [c]) := by
  by_cases h1 : c = '\\'
  · subst h1; simp [escapeChar, parseStringBody, unescapeShort]
  by_cases h2 : c = '"'
  · subst h2; simp [escapeChar, parseStringBody, unescapeShort]
  by_cases h3 : c = '\x08'
  · subst h3; simp [escapeChar, parseStringBody, unescapeShort]
  by_cases h4 : c = '\x0c'
  · subst h4; simp [escapeChar, parseStringBody, unescapeShort]
  by_cases h5 : c = '\n'
  · subst h5; simp [escapeChar, parseStringBody, unescapeShort]
  by_cases h6 : c = '\r'
  · subst h6; simp [escapeChar, parseStringBody, unescapeShort]
  by_cases h7 : c = '\t'
  · subst h7; simp [escapeChar, parseStringBody, unescapeShort]
  by_cases h8 : c.toNat < 0x20 ∨ 0x7e < c.toNat
  · have hesc : escapeChar c = uEscape c.toNat := by
      simp [escapeChar, h1, h2, h3, h4, h5, h6, h7, h8]
    rw [hesc]
    rcases char_toNat_valid c with hv | ⟨hv1, hv2⟩
    · rw [show uEscape c.toNat = '\\' :: 'u' :: hex4 c.toNat from by
        simp [uEscape]; omega]
      simp only [List.cons_append]
      rw [show ∀ r a, parseStringBody (fuel + 1) ('\\' :: 'u' :: r) a =
          (match parseUEscape r with
           | some (u, rest2) => parseStringBody fuel rest2 (a ++ [u])
           | none => none) from fun r a => by simp [parseStringBody]]
      rw [parseUEscape_bmp (by omega) (Or.inl hv), Char.ofNat_toNat]
    · by_cases hbmp : c.toNat < 0x10000
      · rw [show uEscape c.toNat = '\\' :: 'u' :: hex4 c.toNat from by
          simp [uEscape, hbmp]]
        simp only [List.cons_append]
        rw [show ∀ r a, parseStringBody (fuel + 1) ('\\' :: 'u' :: r) a =
            (match parseUEscape r with
             | some (u, rest2) => parseStringBody fuel rest2 (a ++ [u])
             | none => none) from fun r a => by simp [parseStringBody]]
        rw [parseUEscape_bmp hbmp (Or.inr hv1), Char.ofNat_toNat]
      · rw [show uEscape c.toNat = '\\' :: 'u' ::
            (hex4 (0xd800 + (c.toNat - 0x10000) / 0x400) ++
              '\\' :: 'u' :: hex4 (0xdc00 + (c.toNat - 0x10000) % 0x400)) from by
          simp [uEscape, hbmp]]
        simp only [List.cons_append, List.append_assoc]
        rw [show ∀ r a, parseStringBody (fuel + 1) ('\\' :: 'u' :: r) a =
            (match parseUEscape r with
             | some (u, rest2) => parseStringBody fuel rest2 (a ++ [u])
             | none => none) from fun r a => by simp [parseStringBody]]
        rw [parseUEscape_high (by omega) hv2, Char.ofNat_toNat]
  · have hesc : escapeChar c = [c] := by
      simp [escapeChar, h1, h2, h3, h4, h5, h6, h7, h8]
    rw [hesc]
    simp [parseStringBody, h1, h2]

theorem parseStringBody_escapeChars (cs : List Char) :
    ∀ fuel tail acc, cs.length < fuel →
      parseStringBody fuel (escapeChars cs ++ '"' :: tail) acc =
        some (String.mk (acc ++ cs), tail) := by
  induction cs with
  | nil =>
    intro fuel tail acc hf
    cases fuel with
    | zero => omega
    | succ f => simp [escapeChars, parseStringBody]
  | cons c cs ih =>
    intro fuel tail acc hf
    cases fuel with
    | zero => omega
    | succ f =>
      have hsplit : escapeChars (c :: cs) ++ '"' :: tail =
          escapeChar c ++ (escapeChars cs ++ '"' :: tail) := by
        simp [escapeChars]
      rw [hsplit, parseStringBody_escapeChar, ih f tail (acc ++ [c]) (by simpa using hf)]
      simp

/-! ## Shape facts about dumped output -/

theorem escapeChar_length_pos (c : Char) : 0 < (escapeChar c).length := by
  unfold escapeChar uEscape
  split_ifs <;> simp [hex4]

theorem escapeChars_length_le (cs : List Char) : cs.length ≤ (escapeChars cs).length := by
  induction cs with
  | nil => simp [escapeChars]
  | cons c cs ih =>
    have := escapeChar_length_pos c
    simp only [escapeChars, List.length_append, List.length_cons]
    omega

theorem dumpVal_length_pos (v : PyJson) : 0 < (dumpVal v).length := by
  cases v with
  | null => simp [dumpVal]
  | bool b => cases b <;> simp [dumpVal]
  | int i =>
    simp only [dumpVal, intChars]
    split_ifs
    · simp
    · obtain ⟨hne, -, -⟩ := natDigits_spec i.toNat
      cases hng : natDigits i.toNat with
      | nil => exact absurd hng hne
      | cons d ds => simp [hng]
  | str s => simp [dumpVal, dumpStr]
  | arr xs => simp [dumpVal]
  | obj kvs => simp [dumpVal]

theorem dumpMoreArr_length_pos (xs : List PyJson) : 0 < (dumpMoreArr xs).length := by
  cases xs <;> simp [dumpMoreArr]

theorem dumpMoreObj_length_pos (kvs : List (String × PyJson)) :
    0 < (dumpMoreObj kvs).length := by
  cases kvs with
  | nil => simp [dumpMoreObj]
  | cons p ps => obtain ⟨k, v⟩ := p; simp [dumpMoreObj]

theorem noDigit_dumpMoreArr (xs : List PyJson) (r : List Char) :
    noDigitHead (dumpMoreArr xs ++ r) = true := by
  cases xs with
  | nil => simp [dumpMoreArr, noDigitHead, show (']').isDigit = false from rfl]
  | cons x xs => simp [dumpMoreArr, noDigitHead, show (',').isDigit = false from rfl]

theorem noDigit_dumpMoreObj (kvs : List (String × PyJson)) (r : List Char) :
    noDigitHead (dumpMoreObj kvs ++ r) = true := by
  cases kvs with
  | nil => simp [dumpMoreObj, noDigitHead, show ('}').isDigit = false from rfl]
  | cons p ps =>
    obtain ⟨k, v⟩ := p
    simp [dumpMoreObj, noDigitHead, show (',').isDigit = false from rfl]

theorem dumpVal_head (v : PyJson) :
    ∃ c t, dumpVal v = c :: t ∧ isJsonWs c = false ∧ c ≠ ']' ∧ c ≠ '}' ∧ c ≠ ',' := by
  cases v with
  | null => exact ⟨'n', ['u', 'l', 'l'], by simp [dumpVal], by decide, by decide, by decide, by decide⟩
  | bool b =>
    cases b
    · exact ⟨'f', ['a', 'l', 's', 'e'], by simp [dumpVal], by decide, by decide, by decide, by decide⟩
    · exact ⟨'t', ['r', 'u', 'e'], by simp [dumpVal], by decide, by decide, by decide, by decide⟩
  | int i =>
    by_cases hi : i < 0
    · exact ⟨'-', natDigits i.natAbs, by simp [dumpVal, intChars, hi], by decide, by decide,
        by decide, by decide⟩
    · obtain ⟨hne, hdig, -⟩ := natDigits_spec i.toNat
      cases hng : natDigits i.toNat with
      | nil => exact absurd hng hne
      | cons d ds =>
        have hd : d.isDigit = true := hdig d (by rw [hng]; simp)
        exact ⟨d, ds, by simp [dumpVal, intChars, hi, hng],
          isJsonWs_of_isDigit hd, ne_of_isDigit hd (by decide),
          ne_of_isDigit hd (by decide), ne_of_isDigit hd (by decide)⟩
  | str s =>
    exact ⟨'"', escapeChars s.data ++ ['"'], by simp [dumpVal, dumpStr], by decide, by decide,
      by decide, by decide⟩
  | arr xs => exact ⟨'[', dumpArrInner xs, by simp [dumpVal], by decide, by decide, by decide,
      by decide⟩
  | obj kvs => exact ⟨'{', dumpObjInner kvs, by simp [dumpVal], by decide, by decide, by decide,
      by decide⟩

/-! ## Entry equations for the fuel-indexed parser -/

theorem skipWs_cons_ws {c : Char} {cs : List Char} (h : isJsonWs c = true) :
    skipWs (c :: cs) = skipWs cs := by
  simp [skipWs, h]

theorem parseVal_ws {c : Char} (h : isJsonWs c = true) (fuel : Nat) (cs : List Char) :
    parseVal fuel (c :: cs) = parseVal fuel cs := by
  cases fuel with
  | zero => simp [parseVal]
  | succ f => simp only [parseVal, skipWs_cons_ws h]

theorem parseVal_null (fuel : Nat) (rest : List Char) :
    parseVal (fuel + 1) ('n' :: 'u' :: 'l' :: 'l' :: rest) = some (.null, rest) := by
  simp [parseVal, skipWs, isJsonWs, expectChars]

theorem parseVal_true (fuel : Nat) (rest : List Char) :
    parseVal (fuel + 1) ('t' :: 'r' :: 'u' :: 'e' :: rest) = some (.bool true, rest) := by
  simp [parseVal, skipWs, isJsonWs, expectChars]

theorem parseVal_false (fuel : Nat) (rest : List Char) :
    parseVal (fuel + 1) ('f' :: 'a' :: 'l' :: 's' :: 'e' :: rest) = some (.bool false, rest) := by
  simp [parseVal, skipWs, isJsonWs, expectChars]

theorem parseVal_quote (fuel : Nat) (rest : List Char) :
    parseVal (fuel + 1) ('"' :: rest) =
      (match parseStringBody (rest.length + 1) rest [] with
       | some (s, rest2) => some (.str s, rest2)
       | none => none) := by
  simp [parseVal, skipWs, isJsonWs]

theorem parseVal_bracket (fuel : Nat) (rest : List Char) :
    parseVal (fuel + 1) ('[' :: rest) =
      (match parseArrItems fuel rest with
       | some (xs, rest2) => some (.arr xs, rest2)
       | none => none) := by
  simp [parseVal, skipWs, isJsonWs]

theorem parseVal_brace (fuel : Nat) (rest : List Char) :
    parseVal (fuel + 1) ('{' :: rest) =
      (match parseObjItems fuel rest with
       | some (kvs, rest2) => some (.obj (dictOfPairs kvs), rest2)
       | none => none) := by
  simp [parseVal, skipWs, isJsonWs]

theorem parseVal_minus (fuel : Nat) (c2 : Char) (rest2 : List Char) :
    parseVal (fuel + 1) ('-' :: c2 :: rest2) =
      (if c2.isDigit then
        some (.int (-((parseDigits (c2 :: rest2) 0).1 : Int)), (parseDigits (c2 :: rest2) 0).2)
       else none) := by
  simp [parseVal, skipWs, isJsonWs]

theorem parseVal_digit (fuel : Nat) {c : Char} (hc : c.isDigit = true) (rest : List Char) :
    parseVal (fuel + 1) (c :: rest) =
      some (.int ((parseDigits (c :: rest) 0).1 : Int), (parseDigits (c :: rest) 0).2) := by
  have hws := isJsonWs_of_isDigit hc
  have hn1 : c ≠ 'n' := ne_of_isDigit hc (by decide)
  have hn2 : c ≠ 't' := ne_of_isDigit hc (by decide)
  have hn3 : c ≠ 'f' := ne_of_isDigit hc (by decide)
  have hn4 : c ≠ '"' := ne_of_isDigit hc (by decide)
  have hn5 : c ≠ '[' := ne_of_isDigit hc (by decide)
  have hn6 : c ≠ '{' := ne_of_isDigit hc (by decide)
  have hn7 : c ≠ '-' := ne_of_isDigit hc (by decide)
  simp [parseVal, skipWs_cons_of_not_ws hws, hn1, hn2, hn3, hn4, hn5, hn6, hn7, hc]

theorem parseArrItems_close (fuel : Nat) (rest : List Char) :
    parseArrItems (fuel + 1) (']' :: rest) = some ([], rest) := by
  simp [parseArrItems, skipWs, isJsonWs]

theorem parseArrItems_value (fuel : Nat) {c : Char} (hws : isJsonWs c = false)
    (hne : c ≠ ']') (rest : List Char) :
    parseArrItems (fuel + 1) (c :: rest) =
      (match parseVal fuel (c :: rest) with
       | some (v, rest2) =>
         (match parseArrMore fuel rest2 with
          | some (vs, rest3) => some (v :: vs, rest3)
          | none => none)
       | none => none) := by
  simp [parseArrItems, skipWs_cons_of_not_ws hws, hne]

theorem parseArrMore_close (fuel : Nat) (rest : List Char) :
    parseArrMore (fuel + 1) (']' :: rest) = some ([], rest) := by
  simp [parseArrMore, skipWs, isJsonWs]

theorem parseArrMore_comma (fuel : Nat) (rest : List Char) :
    parseArrMore (fuel + 1) (',' :: rest) =
      (match parseVal fuel rest with
       | some (v, rest2) =>
         (match parseArrMore fuel rest2 with
          | some (vs, rest3) => some (v :: vs, rest3)
          | none => none)
       | none => none) := by
  simp [parseArrMore, skipWs, isJsonWs]

theorem parseObjItems_close (fuel : Nat) (rest : List Char) :
    parseObjItems (fuel + 1) ('}' :: rest) = some ([], rest) := by
  simp [parseObjItems, skipWs, isJsonWs]

theorem parseObjItems_key (fuel : Nat) (rest : List Char) :
    parseObjItems (fuel + 1) ('"' :: rest) =
      (match parseStringBody (rest.length + 1) rest [] with
       | some (k, rest2) =>
         (match skipWs rest2 with
          | [] => none
          | c2 :: rest3 =>
            if c2 = ':' then
              match parseVal fuel rest3 with
              | some (v, rest4) =>
                (match parseObjMore fuel rest4 with
                 | some (kvs, rest5) => some ((k, v) :: kvs, rest5)
                 | none => none)
              | none => none
            else none)
       | none => none) := by
  simp [parseObjItems, skipWs, isJsonWs]

theorem parseObjMore_close (fuel : Nat) (rest : List Char) :
    parseObjMore (fuel + 1) ('}' :: rest) = some ([], rest) := by
  simp [parseObjMore, skipWs, isJsonWs]

theorem parseObjMore_comma (fuel : Nat) (rest : List Char) :
    parseObjMore (fuel + 1) (',' :: rest) =
      (match skipWs rest with
       | [] => none
       | c1 :: rest1 =>
         if c1 = '"' then
           match parseStringBody (rest1.length + 1) rest1 [] with
           | some (k, rest2) =>
             (match skipWs rest2 with
              | [] => none
              | c2 :: rest3 =>
                if c2 = ':' then
                  match parseVal fuel rest3 with
                  | some (v, rest4) =>
                    (match parseObjMore fuel rest4 with
                     | some (kvs, rest5) => some ((k, v) :: kvs, rest5)
                     | none => none)
                  | none => none
                else none)
           | none => none
         else none) := by
  simp [parseObjMore, skipWs, isJsonWs]

/-! ## Distinct keys and dict construction -/

theorem contains_false_forall {ks : List String} {k : String} (h : ks.contains k = false) :
    ∀ x ∈ ks, x ≠ k := by
  induction ks with
  | nil => simp
  | cons a ks ih =>
    simp only [List.contains_cons, Bool.or_eq_false_iff] at h
    intro x hx
    rcases List.mem_cons.mp hx with rfl | hx
    · simpa using fun he => by simp [he] at h
    · exact ih h.2 x hx

theorem objInsert_of_not_mem {kvs : List (String × PyJson)} {k : String}
    (h : ∀ p ∈ kvs, p.1 ≠ k) (v : PyJson) :
    objInsert kvs k v = kvs ++ [(k, v)] := by
  induction kvs with
  | nil => simp [objInsert]
  | cons p ps ih =>
    obtain ⟨k1, v1⟩ := p
    have hk1 : k1 ≠ k := h (k1, v1) (by simp)
    simp only [objInsert, if_neg hk1, List.cons_append, List.cons.injEq, true_and]
    exact ih fun q hq => h q (by simp [hq])

theorem foldl_objInsert (kvs : List (String × PyJson)) :
    ∀ acc, distinctKeys (kvs.map Prod.fst) = true →
      (∀ p ∈ acc, ∀ q ∈ kvs, p.1 ≠ q.1) →
      kvs.foldl (fun a kv => objInsert a kv.1 kv.2) acc = acc ++ kvs := by
  induction kvs with
  | nil => intro acc _ _; simp
  | cons p ps ih =>
    intro acc hdk hdisj
    obtain ⟨k, v⟩ := p
    simp only [List.map_cons, distinctKeys, Bool.and_eq_true, Bool.not_eq_true'] at hdk
    obtain ⟨hcont, hdk2⟩ := hdk
    have hins : objInsert acc k v = acc ++ [(k, v)] :=
      objInsert_of_not_mem (fun q hq => hdisj q hq (k, v) (by simp)) v
    simp only [List.foldl_cons, hins]
    rw [ih (acc ++ [(k, v)]) hdk2 ?_]
    · simp
    · intro q hq r hr
      rcases List.mem_append.mp hq with hq | hq
      · exact hdisj q hq r (by simp [hr])
      · have hqe : q = (k, v) := by simpa using hq
        subst hqe
        have := contains_false_forall hcont r.1 (List.mem_map_of_mem Prod.fst hr)
        simpa using fun he => this he.symm

theorem dictOfPairs_self {kvs : List (String × PyJson)}
    (h : distinctKeys (kvs.map Prod.fst) = true) : dictOfPairs kvs = kvs := by
  simpa using foldl_objInsert kvs [] h (by simp)

/-! ## The printer-parser roundtrip -/

theorem parse_dump_roundtrip :
    ∀ fuel,
      (∀ v (rest : List Char), wfJson v = true → noDigitHead rest = true →
        (dumpVal v).length < fuel → parseVal fuel (dumpVal v ++ rest) = some (v, rest)) ∧
      (∀ xs (rest : List Char), wfList xs = true → (dumpArrInner xs).length < fuel →
        parseArrItems fuel (dumpArrInner xs ++ rest) = some (xs, rest)) ∧
      (∀ xs (rest : List Char), wfList xs = true → (dumpMoreArr xs).length < fuel →
        parseArrMore fuel (dumpMoreArr xs ++ rest) = some (xs, rest)) ∧
      (∀ kvs (rest : List Char), wfPairs kvs = true → (dumpObjInner kvs).length < fuel →
        parseObjItems fuel (dumpObjInner kvs ++ rest) = some (kvs, rest)) ∧
      (∀ kvs (rest : List Char), wfPairs kvs = true → (dumpMoreObj kvs).length < fuel →
        parseObjMore fuel (dumpMoreObj kvs ++ rest) = some (kvs, rest)) := by
  intro fuel
  induction fuel with
  | zero => refine ⟨?_, ?_, ?_, ?_, ?_⟩ <;> intros <;> omega
  | succ fuel ih =>
    obtain ⟨ihA, ihB, ihC, ihD, ihE⟩ := ih
    refine ⟨?_, ?_, ?_, ?_, ?_⟩
    · intro v rest hwf hnd hlen
      cases v with
      | null =>
        rw [show dumpVal .null = ['n', 'u', 'l', 'l'] from by simp [dumpVal]]
        exact parseVal_null fuel rest
      | bool b =>
        cases b
        · rw [show dumpVal (.bool false) = ['f', 'a', 'l', 's', 'e'] from by simp [dumpVal]]
          exact parseVal_false fuel rest
        · rw [show dumpVal (.bool true) = ['t', 'r', 'u', 'e'] from by simp [dumpVal]]
          exact parseVal_true fuel rest
      | int i =>
        by_cases hi : i < 0
        · obtain ⟨hne, hdig, -⟩ := natDigits_spec i.natAbs
          cases hng : natDigits i.natAbs with
          | nil => exact absurd hng hne
          | cons d ds =>
            have hd : d.isDigit = true := hdig d (by rw [hng]; simp)
            rw [show dumpVal (.int i) = '-' :: natDigits i.natAbs from by
              simp [dumpVal, intChars, hi], hng]
            simp only [List.cons_append]
            rw [parseVal_minus fuel d (ds ++ rest), if_pos hd,
              show d :: (ds ++ rest) = (d :: ds) ++ rest from rfl, ← hng,
              parseDigits_natDigits i.natAbs hnd]
            have hcast : -((i.natAbs : Nat) : Int) = i := by omega
            simp only [hcast]
        · obtain ⟨hne, hdig, -⟩ := natDigits_spec i.toNat
          cases hng : natDigits i.toNat with
          | nil => exact absurd hng hne
          | cons d ds =>
            have hd : d.isDigit = true := hdig d (by rw [hng]; simp)
            rw [show dumpVal (.int i) = natDigits i.toNat from by
              simp [dumpVal, intChars, hi], hng]
            simp only [List.cons_append]
            rw [parseVal_digit fuel hd (ds ++ rest),
              show d :: (ds ++ rest) = (d :: ds) ++ rest from rfl, ← hng,
              parseDigits_natDigits i.toNat hnd]
            have hcast : ((i.toNat : Nat) : Int) = i := by omega
            simp only [hcast]
      | str s =>
        obtain ⟨sd⟩ := s
        rw [show dumpVal (.str ⟨sd⟩) = '"' :: (escapeChars sd ++ ['"']) from by
          simp [dumpVal, dumpStr]]
        simp only [List.cons_append, List.append_assoc, List.singleton_append, List.nil_append]
        rw [parseVal_quote]
        rw [parseStringBody_escapeChars sd ((escapeChars sd ++ '"' :: rest).length + 1) rest []
          (by have := escapeChars_length_le sd
              simp only [List.length_append, List.length_cons]
              omega)]
        simp
      | arr xs =>
        simp only [wfJson] at hwf
        rw [show dumpVal (.arr xs) = '[' :: dumpArrInner xs from by simp [dumpVal]]
        simp only [List.cons_append]
        rw [parseVal_bracket]
        have hlen2 : (dumpArrInner xs).length < fuel := by
          have hx : (dumpVal (.arr xs)).length = 1 + (dumpArrInner xs).length := by
            simp [dumpVal]
            omega
          omega
        rw [ihB xs rest hwf hlen2]
      | obj kvs =>
        simp only [wfJson, Bool.and_eq_true] at hwf
        obtain ⟨hdk, hwp⟩ := hwf
        rw [show dumpVal (.obj kvs) = '{' :: dumpObjInner kvs from by simp [dumpVal]]
        simp only [List.cons_append]
        rw [parseVal_brace]
        have hlen2 : (dumpObjInner kvs).length < fuel := by
          have hx : (dumpVal (.obj kvs)).length = 1 + (dumpObjInner kvs).length := by
            simp [dumpVal]
            omega
          omega
        rw [ihD kvs rest hwp hlen2]
        simp [dictOfPairs_self hdk]
    · intro xs rest hwf hlen
      cases xs with
      | nil =>
        rw [show dumpArrInner ([] : List PyJson) = [']'] from by simp [dumpArrInner]]
        exact parseArrItems_close fuel rest
      | cons x xs =>
        simp only [wfList, Bool.and_eq_true] at hwf
        obtain ⟨hwx, hwxs⟩ := hwf
        obtain ⟨c, t, hct, hcws, hcne1, hcne2, hcne3⟩ := dumpVal_head x
        have hpm := dumpMoreArr_length_pos xs
        have hpx := dumpVal_length_pos x
        have hlens : (dumpArrInner (x :: xs)).length =
            (dumpVal x).length + (dumpMoreArr xs).length := by simp [dumpArrInner]
        have hback : c :: (t ++ (dumpMoreArr xs ++ rest)) =
            dumpVal x ++ (dumpMoreArr xs ++ rest) := by rw [hct]; simp
        rw [show dumpArrInner (x :: xs) = dumpVal x ++ dumpMoreArr xs from by
          simp [dumpArrInner], List.append_assoc, hct]
        simp only [List.cons_append]
        rw [parseArrItems_value fuel hcws hcne1]
        simp only [hback,
          ihA x (dumpMoreArr xs ++ rest) hwx (noDigit_dumpMoreArr xs rest) (by omega),
          ihC xs rest hwxs (by omega)]
    · intro xs rest hwf hlen
      cases xs with
      | nil =>
        rw [show dumpMoreArr ([] : List PyJson) = [']'] from by simp [dumpMoreArr]]
        exact parseArrMore_close fuel rest
      | cons x xs =>
        simp only [wfList, Bool.and_eq_true] at hwf
        obtain ⟨hwx, hwxs⟩ := hwf
        have hpm := dumpMoreArr_length_pos xs
        have hpx := dumpVal_length_pos x
        have hlens : (dumpMoreArr (x :: xs)).length =
            2 + ((dumpVal x).length + (dumpMoreArr xs).length) := by
          simp [dumpMoreArr]
          omega
        rw [show dumpMoreArr (x :: xs) = ',' :: ' ' :: (dumpVal x ++ dumpMoreArr xs) from by
          simp [dumpMoreArr]]
        simp only [List.cons_append]
        rw [parseArrMore_comma fuel, parseVal_ws (show isJsonWs ' ' = true from rfl),
          List.append_assoc]
        simp only [
          ihA x (dumpMoreArr xs ++ rest) hwx (noDigit_dumpMoreArr xs rest) (by omega),
          ihC xs rest hwxs (by omega)]
    · intro kvs rest hwf hlen
      cases kvs with
      | nil =>
        rw [show dumpObjInner ([] : List (String × PyJson)) = ['}'] from by simp [dumpObjInner]]
        exact parseObjItems_close fuel rest
      | cons p kvs =>
        obtain ⟨k, v⟩ := p
        obtain ⟨kd⟩ := k
        simp only [wfPairs, Bool.and_eq_true] at hwf
        obtain ⟨hwv, hwp⟩ := hwf
        have hpm := dumpMoreObj_length_pos kvs
        have hpx := dumpVal_length_pos v
        have hesc := escapeChars_length_le kd
        have hlens : (dumpObjInner ((⟨kd⟩, v) :: kvs)).length =
            (escapeChars kd).length + 4 + ((dumpVal v).length + (dumpMoreObj kvs).length) := by
          simp [dumpObjInner, dumpStr]
          omega
        rw [show dumpObjInner ((⟨kd⟩, v) :: kvs) =
            '"' :: (escapeChars kd ++ ('"' :: (':' :: ' ' :: (dumpVal v ++ dumpMoreObj kvs))))
          from by simp [dumpObjInner, dumpStr]]
        simp only [List.cons_append, List.append_assoc]
        rw [parseObjItems_key fuel]
        rw [parseStringBody_escapeChars kd _
          (':' :: ' ' :: (dumpVal v ++ (dumpMoreObj kvs ++ rest))) []
          (by simp only [List.length_append, List.length_cons]
              omega)]
        simp only [List.nil_append, skipWs_cons_of_not_ws (show isJsonWs ':' = false from rfl),
          eq_self_iff_true, if_true,
          parseVal_ws (show isJsonWs ' ' = true from rfl),
          ihA v (dumpMoreObj kvs ++ rest) hwv (noDigit_dumpMoreObj kvs rest) (by omega),
          ihE kvs rest hwp (by omega)]
    · intro kvs rest hwf hlen
      cases kvs with
      | nil =>
        rw [show dumpMoreObj ([] : List (String × PyJson)) = ['}'] from by simp [dumpMoreObj]]
        exact parseObjMore_close fuel rest
      | cons p kvs =>
        obtain ⟨k, v⟩ := p
        obtain ⟨kd⟩ := k
        simp only [wfPairs, Bool.and_eq_true] at hwf
        obtain ⟨hwv, hwp⟩ := hwf
        have hpm := dumpMoreObj_length_pos kvs
        have hpx := dumpVal_length_pos v
        have hesc := escapeChars_length_le kd
        have hlens : (dumpMoreObj ((⟨kd⟩, v) :: kvs)).length =
            (escapeChars kd).length + 6 + ((dumpVal v).length + (dumpMoreObj kvs).length) := by
          simp [dumpMoreObj, dumpStr]
          omega
        rw [show dumpMoreObj ((⟨kd⟩, v) :: kvs) =
            ',' :: ' ' :: '"' ::
              (escapeChars kd ++ ('"' :: (':' :: ' ' :: (dumpVal v ++ dumpMoreObj kvs))))
          from by simp [dumpMoreObj, dumpStr]]
        simp only [List.cons_append, List.append_assoc]
        rw [parseObjMore_comma fuel]
        rw [skipWs_cons_ws (show isJsonWs ' ' = true from rfl),
          skipWs_cons_of_not_ws (show isJsonWs '"' = false from rfl)]
        simp only [eq_self_iff_true, if_true]
        rw [parseStringBody_escapeChars kd _
          (':' :: ' ' :: (dumpVal v ++ (dumpMoreObj kvs ++ rest))) []
          (by simp only [List.length_append, List.length_cons]
              omega)]
        simp only [List.nil_append, skipWs_cons_of_not_ws (show isJsonWs ':' = false from rfl),
          eq_self_iff_true, if_true,
          parseVal_ws (show isJsonWs ' ' = true from rfl),
          ihA v (dumpMoreObj kvs ++ rest) hwv (noDigit_dumpMoreObj kvs rest) (by omega),
          ihE kvs rest hwp (by omega)]

theorem loads_dumps (v : PyJson) (h : wfJson v = true) : loads (dumps v) = some v := by
  have hmain := (parse_dump_roundtrip ((dumpVal v).length + 1)).1 v [] h rfl
    (Nat.lt_succ_self _)
  rw [List.append_nil] at hmain
  show (match parseVal ((dumpVal v).length + 1) (dumpVal v) with
        | some (w, rest) => if (skipWs rest).isEmpty then some w else none
        | none => none) = some v
  rw [hmain]
  simp [skipWs]

/-! ## Structure of the emitted output blocks -/

theorem foldl_emitStep_fst (fmt md : MimeBundle) :
    ∀ (specs : List MimeSpec) (outs : List OutputBlock) (b : Bool),
      (specs.foldl (emitStep fmt md) (outs, b)).1 =
        outs ++ (specs.map (emittedFor fmt md)).flatten := by
  intro specs
  induction specs with
  | nil => intro outs b; simp
  | cons sp specs ih =>
    intro outs b
    simp only [List.foldl_cons, List.map_cons, List.flatten_cons]
    cases hsp : assoc fmt sp.mime with
    | none =>
      rw [show emitStep fmt md (outs, b) sp = (outs, b) from by simp [emitStep, hsp],
        show emittedFor fmt md sp = [] from by simp [emittedFor, hsp]]
      simp [ih]
    | some d =>
      rw [show emitStep fmt md (outs, b) sp =
          (outs ++ [⟨sp.tag, blockData sp.serialize d, getMeta md sp.mime⟩], b || sp.marks)
        from by simp [emitStep, hsp],
        show emittedFor fmt md sp = [⟨sp.tag, blockData sp.serialize d, getMeta md sp.mime⟩]
        from by simp [emittedFor, hsp]]
      simp [ih]

theorem foldl_emitStep_snd (fmt md : MimeBundle) :
    ∀ (specs : List MimeSpec) (outs : List OutputBlock) (b : Bool),
      (specs.foldl (emitStep fmt md) (outs, b)).2 =
        (b || specs.any (fun sp => sp.marks && (assoc fmt sp.mime).isSome)) := by
  intro specs
  induction specs with
  | nil => intro outs b; simp
  | cons sp specs ih =>
    intro outs b
    simp only [List.foldl_cons, List.any_cons]
    cases hsp : assoc fmt sp.mime with
    | none =>
      rw [show emitStep fmt md (outs, b) sp = (outs, b) from by simp [emitStep, hsp]]
      simp [ih, hsp]
    | some d =>
      rw [show emitStep fmt md (outs, b) sp =
          (outs ++ [⟨sp.tag, blockData sp.serialize d, getMeta md sp.mime⟩], b || sp.marks)
        from by simp [emitStep, hsp]]
      simp [ih, hsp, Bool.or_assoc]

theorem renderTrailing_eq (fmt md : MimeBundle) (prior : List OutputBlock) :
    renderTrailing fmt md prior = prior ++ trailingAppended fmt md prior := by
  unfold renderTrailing trailingAppended richNew outputAddedB
  dsimp only
  rw [foldl_emitStep_fst, foldl_emitStep_snd]
  simp only [Bool.false_or]
  cases htp : assoc fmt "text/plain" with
  | none => simp
  | some d =>
    by_cases hc : ((!(mimeSpecs.any fun sp => sp.marks && (assoc fmt sp.mime).isSome)) ||
        ((prior ++ (mimeSpecs.map (emittedFor fmt md)).flatten).any
          fun o => o.type == "html")) = true
    · simp only [if_pos hc]
      simp
    · simp only [if_neg hc]
      simp

theorem emittedFor_type {data md : MimeBundle} {sp : MimeSpec} {b : OutputBlock}
    (hb : b ∈ emittedFor data md sp) : b.type = sp.tag := by
  unfold emittedFor at hb
  cases h : assoc data sp.mime with
  | none => rw [h] at hb; simp at hb
  | some d => rw [h] at hb; simp at hb; rw [hb]

theorem richNew_types {fmt md : MimeBundle} {b : OutputBlock} (hb : b ∈ richNew fmt md) :
    b.type = "image" ∨ b.type = "jpeg" ∨ b.type = "svg" ∨ b.type = "html" ∨ b.type = "json" ∨
      b.type = "latex" ∨ b.type = "markdown" ∨ b.type = "javascript" := by
  unfold richNew at hb
  simp only [List.mem_flatten, List.mem_map] at hb
  obtain ⟨l, ⟨sp, hsp, rfl⟩, hbl⟩ := hb
  have ht := emittedFor_type hbl
  fin_cases hsp <;> simp_all

theorem richNew_no_text {fmt md : MimeBundle} {b : OutputBlock} (hb : b ∈ richNew fmt md) :
    b.type ≠ "text" := by
  rcases richNew_types hb with h | h | h | h | h | h | h | h <;> rw [h] <;> decide

theorem richNew_no_html {fmt md : MimeBundle} (hnone : assoc fmt "text/html" = none)
    {b : OutputBlock} (hb : b ∈ richNew fmt md) : b.type ≠ "html" := by
  unfold richNew at hb
  simp only [List.mem_flatten, List.mem_map] at hb
  obtain ⟨l, ⟨sp, hsp, rfl⟩, hbl⟩ := hb
  have ht := emittedFor_type hbl
  fin_cases hsp <;>
    first
      | (simp only [emittedFor, hnone] at hbl; simp at hbl)
      | (rw [ht]; decide)

/-! ## Characterization of execute_code -/

theorem execute_code_eq (o : ExecOutcome) :
    execute_code o =
      { stdout := o.stdout, stderr := o.stderr, error := execErrorOf o,
        outputs := capturedBlocks o ++ o.figures.map figureBlock ++ trailingPart o } := by
  cases herr : o.errorInExec with
  | none =>
    cases hres : o.result with
    | none => simp [execute_code, execErrorOf, trailingPart, herr, hres]
    | some v =>
      obtain ⟨native, render⟩ := v
      cases native with
      | some s => simp [execute_code, execErrorOf, trailingPart, herr, hres]
      | none =>
        cases render with
        | ok p =>
          obtain ⟨fmt, md⟩ := p
          simp only [execute_code, execErrorOf, trailingPart, herr, hres]
          rw [renderTrailing_eq]
          simp [List.append_assoc]
        | error e => simp [execute_code, execErrorOf, trailingPart, herr, hres]
  | some e0 =>
    cases hres : o.result with
    | none => simp [execute_code, execErrorOf, trailingPart, herr, hres]
    | some v =>
      obtain ⟨native, render⟩ := v
      cases native with
      | some s => simp [execute_code, execErrorOf, trailingPart, herr, hres]
      | none =>
        cases render with
        | ok p =>
          obtain ⟨fmt, md⟩ := p
          simp only [execute_code, execErrorOf, trailingPart, herr, hres]
          rw [renderTrailing_eq]
          simp [List.append_assoc]
        | error e => simp [execute_code, execErrorOf, trailingPart, herr, hres]

/-! ## Small bridges used by the claims -/

theorem assoc_some_mem {l : MimeBundle} {k : String} {v : PyJson}
    (h : assoc l k = some v) : k ∈ l.map Prod.fst := by
  induction l with
  | nil => simp [assoc] at h
  | cons p ps ih =>
    obtain ⟨k1, v1⟩ := p
    by_cases hk : k1 = k
    · subst hk; simp
    · simp only [assoc, if_neg hk] at h
      simp [ih h]

theorem richNew_any_text_false (fmt md : MimeBundle) :
    ((richNew fmt md).any fun b => b.type == "text") = false := by
  rw [List.any_eq_false]
  intro b hb
  simp [richNew_no_text hb]

theorem richNew_any_html_false {fmt : MimeBundle} (md : MimeBundle)
    (h : assoc fmt "text/html" = none) :
    ((richNew fmt md).any fun o => o.type == "html") = false := by
  rw [List.any_eq_false]
  intro b hb
  simp [richNew_no_html h hb]

/-! ## Claims -/

/-- C4 counterexample: with one pending figure and a trailing dict, the
figure's `image` block precedes the dict's `json` block in the outputs — the
claim's order (figure blocks after both step 1 and step 2) is false here. -/
theorem c4_counterexample :
    (execute_code ⟨"", "", [], none,
        some ⟨some (.dict [("a", .int 1)]), .ok ([], [])⟩, ["FIG"]⟩).outputs =
      [figureBlock "FIG", jsonBlockFor (.dict [("a", .int 1)])] ∧
    (execute_code ⟨"", "", [], none,
        some ⟨some (.dict [("a", .int 1)]), .ok ([], [])⟩, ["FIG"]⟩).outputs ≠
      capturedBlocks ⟨"", "", [], none,
        some ⟨some (.dict [("a", .int 1)]), .ok ([], [])⟩, ["FIG"]⟩ ++
      trailingPart ⟨"", "", [], none,
        some ⟨some (.dict [("a", .int 1)]), .ok ([], [])⟩, ["FIG"]⟩ ++
      (["FIG"].map figureBlock) := by
  refine ⟨rfl, fun h => ?_⟩
  exact absurd (congrArg (List.map OutputBlock.type) h) (by decide)

/-- C4 (amended): the drained figure blocks are appended after the captured
display-payload blocks (step 1) but before the trailing-expression blocks
(step 2), not after both. -/
theorem c4_figures_between (o : ExecOutcome) :
    (execute_code o).outputs =
      capturedBlocks o ++ o.figures.map figureBlock ++ trailingPart o := by
  rw [execute_code_eq]

/-- C5 counterexample: an outcome carrying both an execution-time exception
and a non-absent trailing dict still gets the dict's `json` block appended —
the claim that no blocks are appended for the value is false here. -/
theorem c5_counterexample :
    (execute_code ⟨"", "", [], some ⟨"ZeroDivisionError", "division by zero", [], "TB"⟩,
        some ⟨some (.dict [("a", .int 1)]), .ok ([], [])⟩, []⟩).error.isSome = true ∧
    (execute_code ⟨"", "", [], some ⟨"ZeroDivisionError", "division by zero", [], "TB"⟩,
        some ⟨some (.dict [("a", .int 1)]), .ok ([], [])⟩, []⟩).outputs ≠ [] ∧
    (execute_code ⟨"", "", [], some ⟨"ZeroDivisionError", "division by zero", [], "TB"⟩,
        some ⟨some (.dict [("a", .int 1)]), .ok ([], [])⟩, []⟩).outputs =
      [jsonBlockFor (.dict [("a", .int 1)])] := by
  exact ⟨rfl, fun h => absurd (congrArg List.length h) (by decide), rfl⟩

/-- C5 (amended): the executor renders the trailing expression's value
whenever the outcome carries one (`exec_result.result is not None`), even
when an execution-time exception occurred; in the dict/list case the value's
single `json` block is appended regardless of the error. -/
theorem c5_trailing_rendered_despite_error (o : ExecOutcome) (e : PyError) (v : PyValue)
    (_herr : o.errorInExec = some e) (hres : o.result = some v) :
    (execute_code o).outputs =
      capturedBlocks o ++ o.figures.map figureBlock ++ trailingPart o ∧
    (∀ s, v.native = some s → trailingPart o = [jsonBlockFor s]) := by
  refine ⟨by rw [execute_code_eq], ?_⟩
  intro s hs
  simp [trailingPart, hres, hs]

/-- C5 amended witness at a concrete outcome. -/
theorem c5_witness :
    (execute_code ⟨"", "", [], some ⟨"ValueError", "bad", [], "TB"⟩,
        some ⟨some (.list [.int 2]), .ok ([], [])⟩, []⟩).outputs =
      capturedBlocks ⟨"", "", [], some ⟨"ValueError", "bad", [], "TB"⟩,
        some ⟨some (.list [.int 2]), .ok ([], [])⟩, []⟩ ++
      (([] : List String).map figureBlock) ++
      trailingPart ⟨"", "", [], some ⟨"ValueError", "bad", [], "TB"⟩,
        some ⟨some (.list [.int 2]), .ok ([], [])⟩, []⟩ ∧
    trailingPart ⟨"", "", [], some ⟨"ValueError", "bad", [], "TB"⟩,
        some ⟨some (.list [.int 2]), .ok ([], [])⟩, []⟩ =
      [jsonBlockFor (.list [.int 2])] := by
  have h := c5_trailing_rendered_despite_error
    ⟨"", "", [], some ⟨"ValueError", "bad", [], "TB"⟩,
      some ⟨some (.list [.int 2]), .ok ([], [])⟩, []⟩
    ⟨"ValueError", "bad", [], "TB"⟩ ⟨some (.list [.int 2]), .ok ([], [])⟩ rfl rfl
  exact ⟨h.1, h.2 _ rfl⟩

/-- C6: a snippet that raises an execution-time error yields a response with
`success=false`, `error.type` the exception's runtime class name, the
captured stdout/stderr and the output blocks produced before the failure
preserved, and the loop continues with the next event. -/
theorem c6_execution_error (o : ExecOutcome) (e : PyError)
    (herr : o.errorInExec = some e) (hres : o.result = none) :
    execute_code o =
      { stdout := o.stdout, stderr := o.stderr, error := some (execErrorInfo e),
        outputs := capturedBlocks o ++ o.figures.map figureBlock } ∧
    (execErrorInfo e).type = e.className ∧
    (∀ eid, lookupKey (responseJson (execute_code o) eid) "success" =
      some (.bool false)) ∧
    (∀ (code : String) (eid : Option PyJson) (rest : List LineEvent),
      mainLoop (.request ⟨code, eid, o⟩ :: rest) =
        responseJson (execute_code o) eid :: mainLoop rest) := by
  have h := execute_code_eq o
  rw [show execErrorOf o = some (execErrorInfo e) from by
        simp [execErrorOf, hres, herr],
      show trailingPart o = [] from by simp [trailingPart, hres]] at h
  rw [List.append_nil] at h
  refine ⟨h, rfl, ?_, ?_⟩
  · intro eid
    rw [h]
    simp [responseJson, lookupKey, assoc, errorField]
  · intro code eid rest
    simp [mainLoop]

/-- C6 witness: `print("hello")` before a failing division — stdout kept,
error typed by class name, success false, loop continues. -/
theorem c6_witness :
    execute_code ⟨"hello\n", "", [], some ⟨"ZeroDivisionError", "division by zero",
        ["frame0"], "TB"⟩, none, []⟩ =
      { stdout := "hello\n", stderr := "",
        error := some ⟨"ZeroDivisionError", "division by zero", "frame0"⟩,
        outputs := [] } ∧
    lookupKey (responseJson (execute_code ⟨"hello\n", "", [],
        some ⟨"ZeroDivisionError", "division by zero", ["frame0"], "TB"⟩, none, []⟩)
      (some (.str "id1"))) "success" = some (.bool false) := by
  have h := c6_execution_error
    ⟨"hello\n", "", [], some ⟨"ZeroDivisionError", "division by zero", ["frame0"], "TB"⟩,
      none, []⟩
    ⟨"ZeroDivisionError", "division by zero", ["frame0"], "TB"⟩ rfl rfl
  exact ⟨h.1, h.2.2.1 (some (.str "id1"))⟩

/-- C8: a line that is not valid JSON yields a `ProtocolError` response
without any `executionId` key, executes nothing, and the loop continues,
processing a following valid request normally. -/
theorem c8_protocol_error (msg : String) (rest : List LineEvent) :
    mainLoop (.malformed msg :: rest) = protocolErrorJson msg :: mainLoop rest ∧
    lookupKey (protocolErrorJson msg) "executionId" = none ∧
    (lookupKey (protocolErrorJson msg) "error").bind (fun e => lookupKey e "type") =
      some (.str "ProtocolError") ∧
    (∀ (req : Request) (rest2 : List LineEvent), rest = .request req :: rest2 →
      mainLoop (.malformed msg :: rest) =
        protocolErrorJson msg ::
          responseJson (execute_code req.outcome) req.executionId :: mainLoop rest2) := by
  refine ⟨by simp [mainLoop], by simp [protocolErrorJson, lookupKey, assoc],
    by simp [protocolErrorJson, lookupKey, assoc], ?_⟩
  rintro req rest2 rfl
  simp [mainLoop]

/-- C8 witness: the literal line `not json`, followed by a valid request. -/
theorem c8_witness :
    mainLoop [.malformed "not json",
        .request ⟨"x = 1", none, ⟨"", "", [], none, none, []⟩⟩] =
      [protocolErrorJson "not json",
        responseJson (execute_code ⟨"", "", [], none, none, []⟩) none] ∧
    lookupKey (protocolErrorJson "not json") "executionId" = none := by
  have h := c8_protocol_error "not json"
    [.request ⟨"x = 1", none, ⟨"", "", [], none, none, []⟩⟩]
  exact ⟨by simp [mainLoop], h.2.1⟩

/-- C9: for every successfully parsed request, the emitted response's
`success` field is `true` exactly when its `error` field is `null`. -/
theorem c9_success_iff_error_null (req : Request) (rest : List LineEvent) :
    mainLoop (.request req :: rest) =
      responseJson (execute_code req.outcome) req.executionId :: mainLoop rest ∧
    (lookupKey (responseJson (execute_code req.outcome) req.executionId) "success" =
        some (.bool true) ↔
      lookupKey (responseJson (execute_code req.outcome) req.executionId) "error" =
        some PyJson.null) := by
  refine ⟨by simp [mainLoop], ?_⟩
  cases h : (execute_code req.outcome).error with
  | none => simp [responseJson, lookupKey, assoc, errorField, h]
  | some e => simp [responseJson, lookupKey, assoc, errorField, h, ErrorInfo.toJson]

/-- C3 counterexample: when the formatting machinery raises, `execute_code`'s
`except` clause only sets `result['error']` — the partial stdout and the
display block already built are kept, not discarded, and the error kind is
the exception's plain class name. -/
theorem c3_counterexample :
    ¬ ((execute_code ⟨"out", "", [.rich [("text/plain", .str "D")] []], none,
          some ⟨none, .error ⟨"TypeError", "boom", [], "TBX"⟩⟩, []⟩).stdout = "" ∧
       (execute_code ⟨"out", "", [.rich [("text/plain", .str "D")] []], none,
          some ⟨none, .error ⟨"TypeError", "boom", [], "TBX"⟩⟩, []⟩).outputs = []) ∧
    execute_code ⟨"out", "", [.rich [("text/plain", .str "D")] []], none,
        some ⟨none, .error ⟨"TypeError", "boom", [], "TBX"⟩⟩, []⟩ =
      { stdout := "out", stderr := "",
        error := some ⟨"TypeError", "boom", "TBX"⟩,
        outputs := [⟨"text", .str "D", .obj []⟩] } := by
  refine ⟨fun h => absurd (congrArg List.length (h.2)) (by decide), rfl⟩

/-- C3 (amended): an exception from the capture/formatting machinery is
caught by `execute_code`'s `except` clause, which sets `error` to the
exception's runtime class name, message and `traceback.format_exc()` text —
the same naming scheme as execution errors, not a distinct internal kind —
while the partial stdout/stderr and output blocks already built are kept in
the response, and `success` is false. -/
theorem c3_machinery_error (o : ExecOutcome) (v : PyValue) (e : PyError)
    (hres : o.result = some v) (hnat : v.native = none) (hrnd : v.render = .error e) :
    execute_code o =
      { stdout := o.stdout, stderr := o.stderr, error := some (internalErrorInfo e),
        outputs := capturedBlocks o ++ o.figures.map figureBlock } ∧
    (internalErrorInfo e).type = e.className ∧
    (internalErrorInfo e).traceback = e.formatExc ∧
    (∀ eid, lookupKey (responseJson (execute_code o) eid) "success" =
      some (.bool false)) := by
  have h := execute_code_eq o
  rw [show execErrorOf o = some (internalErrorInfo e) from by
        simp [execErrorOf, hres, hnat, hrnd],
      show trailingPart o = [] from by simp [trailingPart, hres, hnat, hrnd]] at h
  rw [List.append_nil] at h
  refine ⟨h, rfl, rfl, ?_⟩
  intro eid
  rw [h]
  simp [responseJson, lookupKey, assoc, errorField]

/-- C3 amended witness at a concrete outcome with a raising formatter. -/
theorem c3_witness :
    execute_code ⟨"out", "", [], none,
        some ⟨none, .error ⟨"AttributeError", "no repr", [], "Traceback X"⟩⟩, []⟩ =
      { stdout := "out", stderr := "",
        error := some ⟨"AttributeError", "no repr", "Traceback X"⟩, outputs := [] } ∧
    lookupKey (responseJson (execute_code ⟨"out", "", [], none,
        some ⟨none, .error ⟨"AttributeError", "no repr", [], "Traceback X"⟩⟩, []⟩) none)
      "success" = some (.bool false) := by
  have h := c3_machinery_error
    ⟨"out", "", [], none,
      some ⟨none, .error ⟨"AttributeError", "no repr", [], "Traceback X"⟩⟩, []⟩
    ⟨none, .error ⟨"AttributeError", "no repr", [], "Traceback X"⟩⟩
    ⟨"AttributeError", "no repr", [], "Traceback X"⟩ rfl rfl rfl
  exact ⟨h.1, h.2.2.2 none⟩

/-- C7: a trailing value that is natively a dict or list bypasses the
renderer (the formatter's answer `rnd` is arbitrary and unused): exactly one
`json` block is appended for it, holding `json.dumps` of the raw structure,
and `json.loads` of that text yields the original structure back. -/
theorem c7_structured_bypass (o : ExecOutcome) (s : NativeStruct)
    (rnd : Except PyError (MimeBundle × MimeBundle))
    (hres : o.result = some ⟨some s, rnd⟩) (hwf : wfJson s.toJson = true) :
    (execute_code o).outputs =
      capturedBlocks o ++ o.figures.map figureBlock ++ [jsonBlockFor s] ∧
    jsonBlockFor s = ⟨"json", .str (dumps s.toJson), .obj []⟩ ∧
    loads (dumps s.toJson) = some s.toJson := by
  refine ⟨?_, rfl, loads_dumps _ hwf⟩
  rw [execute_code_eq]
  simp [trailingPart, hres]

/-- C7 witness: executing a snippet whose trailing expression is the dict
`{"a": 1}`, with a formatter answer present but ignored. -/
theorem c7_witness :
    (execute_code ⟨"", "", [], none,
        some ⟨some (.dict [("a", .int 1)]), .ok ([("text/plain", .str "ignored")], [])⟩,
        []⟩).outputs = [⟨"json", .str "\x7b\"a\": 1\x7d", .obj []⟩] ∧
    loads (dumps (NativeStruct.dict [("a", .int 1)]).toJson) =
      some (.obj [("a", .int 1)]) := by
  have h := c7_structured_bypass
    ⟨"", "", [], none,
      some ⟨some (.dict [("a", .int 1)]), .ok ([("text/plain", .str "ignored")], [])⟩, []⟩
    (.dict [("a", .int 1)]) (.ok ([("text/plain", .str "ignored")], [])) rfl rfl
  exact ⟨by rw [h.1]; rfl, h.2.2⟩

theorem emittedFor_nil_of_unrec {data md : MimeBundle}
    (hall : (data.all fun kv => kv.1 == "text/plain" || !(richMimes.contains kv.1)) = true)
    {sp : MimeSpec} (hne : sp.mime ≠ "text/plain")
    (hmem : richMimes.contains sp.mime = true) :
    emittedFor data md sp = [] := by
  cases hs : assoc data sp.mime with
  | none => simp [emittedFor, hs]
  | some dv =>
    exfalso
    have hkmem := assoc_some_mem hs
    obtain ⟨⟨k1, v1⟩, hkv, hk⟩ := List.mem_map.mp hkmem
    dsimp at hk
    subst hk
    have hp := List.all_eq_true.mp hall _ hkv
    dsimp at hp
    rw [hmem] at hp
    simp at hp
    exact hne hp

/-- C10: for a captured display payload, a `text` block is emitted only when
the payload's `data` dict has exactly one key; in particular a payload whose
data holds `text/plain` together with only unrecognized MIME kinds (and at
least one of them, so more than one key) produces no output blocks at all. -/
theorem c10_captured_text_rule (data md : MimeBundle)
    (_hkeys : distinctKeys (data.map Prod.fst) = true) :
    (((processCapturedOutput (.rich data md)).any fun b => b.type == "text") = true →
      data.length = 1) ∧
    (∀ d, assoc data "text/plain" = some d →
      (data.all fun kv => kv.1 == "text/plain" || !(richMimes.contains kv.1)) = true →
      data.length ≠ 1 →
      processCapturedOutput (.rich data md) = []) := by
  constructor
  · intro hany
    simp only [processCapturedOutput, List.any_append, Bool.or_eq_true] at hany
    rcases hany with h | h
    · exact absurd (richNew_any_text_false data md ▸ h) (by simp)
    · cases htp : assoc data "text/plain" with
      | none => rw [htp] at h; simp at h
      | some d =>
        rw [htp] at h
        by_cases hlen : data.length = 1
        · exact hlen
        · have hb : (data.length == 1) = false := by simpa using hlen
          rw [hb] at h
          simp at h
  · intro d htp hall hlen
    have hrich : ∀ sp ∈ mimeSpecs, emittedFor data md sp = [] := by
      intro sp hsp
      fin_cases hsp <;> exact emittedFor_nil_of_unrec hall (by decide) (by decide)
    simp only [processCapturedOutput]
    rw [htp]
    have hflat : (mimeSpecs.map (emittedFor data md)).flatten = [] := by
      rw [List.flatten_eq_nil_iff]
      intro l hl
      obtain ⟨sp, hsp, rfl⟩ := List.mem_map.mp hl
      exact hrich sp hsp
    rw [hflat]
    have hb : (data.length == 1) = false := by simpa using hlen
    rw [hb]
    simp

/-- C10 witness: a payload exposing `text/plain` plus one unrecognized kind
emits nothing at all. -/
theorem c10_witness :
    processCapturedOutput
      (.rich [("text/plain", .str "hi"), ("application/x-custom", .str "z")] []) = [] := by
  have h := c10_captured_text_rule
    [("text/plain", .str "hi"), ("application/x-custom", .str "z")] [] (by decide)
  exact h.2 (.str "hi") rfl (by decide) (by decide)

theorem richNew_decomp (fmt md : MimeBundle) :
    richNew fmt md =
      emittedFor fmt md ⟨"image/png", "image", false, true⟩ ++
      (emittedFor fmt md ⟨"image/jpeg", "jpeg", false, true⟩ ++
      (emittedFor fmt md ⟨"image/svg+xml", "svg", false, true⟩ ++
      (emittedFor fmt md ⟨"text/html", "html", false, false⟩ ++
      (emittedFor fmt md ⟨"application/json", "json", true, true⟩ ++
      (emittedFor fmt md ⟨"text/latex", "latex", false, true⟩ ++
      (emittedFor fmt md ⟨"text/markdown", "markdown", false, true⟩ ++
      emittedFor fmt md ⟨"application/javascript", "javascript", false, true⟩)))))) := by
  simp [richNew, mimeSpecs]

theorem trailingAppended_textpart (fmt md : MimeBundle) (prior : List OutputBlock)
    (dt : PyJson) (htp : assoc fmt "text/plain" = some dt) :
    trailingAppended fmt md prior =
      richNew fmt md ++
        (if ((!outputAddedB fmt) ||
            ((prior ++ richNew fmt md).any fun o => o.type == "html")) = true then
          [⟨"text", dt, getMeta md "text/plain"⟩]
        else []) := by
  unfold trailingAppended
  rw [htp]

theorem richNew_append_any_text (fmt md : MimeBundle) (tail : List OutputBlock) :
    ((richNew fmt md ++ tail).any fun b => b.type == "text") =
      (tail.any fun b => b.type == "text") := by
  rw [List.any_append, richNew_any_text_false, Bool.false_or]

/-- C1 counterexample: a rendered value exposing no representations at all —
`output_added` stays false so the claim requires a `text` block, but the code
appends nothing because there is no `text/plain` entry to emit. -/
theorem c1_counterexample :
    ¬ ((((trailingAppended [] [] []).any fun b => b.type == "text") = true) ↔
        (outputAddedB [] = false ∨
          (((renderTrailing [] [] []).any fun o => o.type == "html") = true))) := by
  decide

/-- C1 (amended): for an on-demand-rendered trailing value whose rendering
contains a `text/plain` entry, a `text` block is appended iff `output_added`
is false or an `html` block occurs among the outputs accumulated up to the
text rule (the previous outputs plus this value's rich blocks); and when
both `text/html` and `text/plain` are present, both an `html` and a `text`
block are appended for the value, the html block preceding the text block. -/
theorem c1_text_emission (fmt md : MimeBundle) (prior : List OutputBlock) (dt : PyJson)
    (htp : assoc fmt "text/plain" = some dt) :
    ((((trailingAppended fmt md prior).any fun b => b.type == "text") = true) ↔
      (outputAddedB fmt = false ∨
        (((prior ++ richNew fmt md).any fun o => o.type == "html") = true))) ∧
    (∀ dh, assoc fmt "text/html" = some dh →
      ∃ l1 l2, trailingAppended fmt md prior =
        l1 ++ ⟨"html", dh, getMeta md "text/html"⟩ ::
          (l2 ++ [⟨"text", dt, getMeta md "text/plain"⟩])) := by
  constructor
  · rw [trailingAppended_textpart fmt md prior dt htp]
    by_cases hOA : outputAddedB fmt = true
    · by_cases hH : ((prior ++ richNew fmt md).any fun o => o.type == "html") = true
      · have hC : ((!outputAddedB fmt) ||
            ((prior ++ richNew fmt md).any fun o => o.type == "html")) = true := by
          rw [hH]
          simp
        rw [if_pos hC, richNew_append_any_text]
        constructor
        · intro _
          exact Or.inr hH
        · intro _
          simp
      · have hHf : ((prior ++ richNew fmt md).any fun o => o.type == "html") = false := by
          simpa using hH
        have hC : ((!outputAddedB fmt) ||
            ((prior ++ richNew fmt md).any fun o => o.type == "html")) = false := by
          rw [hOA, hHf]
          simp
        rw [if_neg (by rw [hC]; simp), List.append_nil, richNew_any_text_false]
        constructor
        · intro h
          exact absurd h (by simp)
        · rintro (h | h)
          · exact absurd h (by simp [hOA])
          · exact absurd h (by simp [hHf])
    · have hOAf : outputAddedB fmt = false := by simpa using hOA
      have hC : ((!outputAddedB fmt) ||
          ((prior ++ richNew fmt md).any fun o => o.type == "html")) = true := by
        rw [hOAf]
        simp
      rw [if_pos hC, richNew_append_any_text]
      constructor
      · intro _
        exact Or.inl hOAf
      · intro _
        simp
  · intro dh hdh
    have hhtml : emittedFor fmt md ⟨"text/html", "html", false, false⟩ =
        [⟨"html", dh, getMeta md "text/html"⟩] := by simp [emittedFor, hdh, blockData]
    have hmem : (⟨"html", dh, getMeta md "text/html"⟩ : OutputBlock) ∈ richNew fmt md := by
      rw [richNew_decomp, hhtml]
      simp
    have hany : ((prior ++ richNew fmt md).any fun o => o.type == "html") = true := by
      rw [List.any_eq_true]
      exact ⟨_, List.mem_append_right _ hmem, by simp⟩
    have hC : ((!outputAddedB fmt) ||
        ((prior ++ richNew fmt md).any fun o => o.type == "html")) = true := by
      rw [hany]
      simp
    rw [trailingAppended_textpart fmt md prior dt htp, if_pos hC, richNew_decomp, hhtml]
    exact ⟨emittedFor fmt md ⟨"image/png", "image", false, true⟩ ++
        (emittedFor fmt md ⟨"image/jpeg", "jpeg", false, true⟩ ++
          emittedFor fmt md ⟨"image/svg+xml", "svg", false, true⟩),
      emittedFor fmt md ⟨"application/json", "json", true, true⟩ ++
        (emittedFor fmt md ⟨"text/latex", "latex", false, true⟩ ++
          (emittedFor fmt md ⟨"text/markdown", "markdown", false, true⟩ ++
            emittedFor fmt md ⟨"application/javascript", "javascript", false, true⟩)),
      by simp [List.append_assoc]⟩

/-- C1 amended witness: a rendering exposing `text/html` and `text/plain`. -/
theorem c1_witness :
    ((((trailingAppended [("text/html", .str "H"), ("text/plain", .str "P")] [] []).any
        fun b => b.type == "text") = true) ↔
      (outputAddedB [("text/html", .str "H"), ("text/plain", .str "P")] = false ∨
        ((([] ++ richNew [("text/html", .str "H"), ("text/plain", .str "P")] []).any
          fun o => o.type == "html") = true))) ∧
    (∃ l1 l2, trailingAppended [("text/html", .str "H"), ("text/plain", .str "P")] [] [] =
      l1 ++ ⟨"html", .str "H", getMeta [] "text/html"⟩ ::
        (l2 ++ [⟨"text", .str "P", getMeta [] "text/plain"⟩])) := by
  have h := c1_text_emission [("text/html", .str "H"), ("text/plain", .str "P")] [] []
    (.str "P") rfl
  exact ⟨h.1, h.2 (.str "H") rfl⟩

/-- C2 counterexample: a display payload already emitted an `html` block, so
the `has_html` scan over the whole accumulated outputs fires and a `text`
block IS added for a trailing value exposing only `image/png` and
`text/plain` — refuting the claim that none is added. -/
theorem c2_counterexample :
    (execute_code ⟨"", "", [.rich [("text/html", .str "<b>")] []], none,
        some ⟨none, .ok ([("image/png", .str "PNG"), ("text/plain", .str "TXT")], [])⟩,
        []⟩).outputs =
      [⟨"html", .str "<b>", .obj []⟩, ⟨"image", .str "PNG", .obj []⟩,
        ⟨"text", .str "TXT", .obj []⟩] ∧
    (((execute_code ⟨"", "", [.rich [("text/html", .str "<b>")] []], none,
        some ⟨none, .ok ([("image/png", .str "PNG"), ("text/plain", .str "TXT")], [])⟩,
        []⟩).outputs.any fun b => b.type == "text") = true) := by
  exact ⟨rfl, rfl⟩

/-- C2 (amended): for a trailing value whose rendering exposes `image/png`
and `text/plain` but not `text/html`, the image block comes first among the
blocks appended for the value, and — provided no `html` block is already
among the previously accumulated outputs — no `text` block is appended. -/
theorem c2_png_precedence (fmt md : MimeBundle) (prior : List OutputBlock)
    (dp dt : PyJson) (hpng : assoc fmt "image/png" = some dp)
    (htp : assoc fmt "text/plain" = some dt) (hhtml : assoc fmt "text/html" = none) :
    (∃ l, trailingAppended fmt md prior = ⟨"image", dp, getMeta md "image/png"⟩ :: l) ∧
    ((prior.any fun o => o.type == "html") = false →
      (((trailingAppended fmt md prior).any fun b => b.type == "text") = false)) := by
  have hpngrow : emittedFor fmt md ⟨"image/png", "image", false, true⟩ =
      [⟨"image", dp, getMeta md "image/png"⟩] := by simp [emittedFor, hpng, blockData]
  constructor
  · rw [trailingAppended_textpart fmt md prior dt htp, richNew_decomp, hpngrow]
    refine ⟨(emittedFor fmt md ⟨"image/jpeg", "jpeg", false, true⟩ ++
        (emittedFor fmt md ⟨"image/svg+xml", "svg", false, true⟩ ++
        (emittedFor fmt md ⟨"text/html", "html", false, false⟩ ++
        (emittedFor fmt md ⟨"application/json", "json", true, true⟩ ++
        (emittedFor fmt md ⟨"text/latex", "latex", false, true⟩ ++
        (emittedFor fmt md ⟨"text/markdown", "markdown", false, true⟩ ++
        emittedFor fmt md ⟨"application/javascript", "javascript", false, true⟩)))))) ++
        (if ((!outputAddedB fmt) ||
            ((prior ++ richNew fmt md).any fun o => o.type == "html")) = true then
          [⟨"text", dt, getMeta md "text/plain"⟩]
        else []), ?_⟩
    simp only [List.cons_append, List.nil_append, List.append_assoc]
    rw [richNew_decomp fmt md, hpngrow]
    rfl
  · intro hph
    have hOA : outputAddedB fmt = true := by simp [outputAddedB, mimeSpecs, hpng]
    have hanyh : ((prior ++ richNew fmt md).any fun o => o.type == "html") = false := by
      simp only [List.any_append, hph, Bool.false_or]
      exact richNew_any_html_false md hhtml
    have hC : ((!outputAddedB fmt) ||
        ((prior ++ richNew fmt md).any fun o => o.type == "html")) = false := by
      rw [hOA, hanyh]
      simp
    rw [trailingAppended_textpart fmt md prior dt htp, if_neg (by rw [hC]; simp),
      List.append_nil, richNew_any_text_false]

/-- C2 amended witness: a rendering with `image/png` and `text/plain` only,
no html anywhere before it. -/
theorem c2_witness :
    (∃ l, trailingAppended [("image/png", .str "P"), ("text/plain", .str "T")] [] [] =
      ⟨"image", .str "P", getMeta [] "image/png"⟩ :: l) ∧
    (((trailingAppended [("image/png", .str "P"), ("text/plain", .str "T")] [] []).any
      fun b => b.type == "text") = false) := by
  have h := c2_png_precedence [("image/png", .str "P"), ("text/plain", .str "T")] [] []
    (.str "P") (.str "T") rfl rfl rfl
  exact ⟨h.1, h.2 rfl⟩

end IPyExec
